import Mathlib

/-!
# Rule engine of the falling-block game (`src/cpp/tetris.cpp`)

A shallow embedding of the board engine: the piece catalogue, the placement
check, the commit, the rotation, the row clear, the spawn and the move, each
translated from the C++ function of the same name.  The global variables of
the program are the fields of `Game`; a `void` function that mutates them is
a function `Game → Game`.

Conventions of the embedding:
* `int` values are `Int`.  The anchors the program stores stay within a few
  units of the board and the other `int`s are loop counters and sizes, so no
  machine overflow is involved.
* `Color board[10][8]` is a function `Fin 10 → Fin 8 → Color`, and
  `Color[4][4]` is a function `Fin 4 → Fin 4 → Color`.  A read at a computed
  `int` index goes through `boardAt` / `tetAt`, a write through `setCell` /
  `setTet` / `copyRow`.  An index outside the array is undefined behaviour in
  the source; the embedding reads `NONE` there and drops the write.
* `rand()` is an input: the functions that call it take its value `r`.
-/

namespace Tetris

/-! ## Constants and data model -/

abbrev BOARD_HEIGHT : Int := 10
abbrev BOARD_WIDTH : Int := 8
abbrev TETROMINO_WIDTH : Int := 4
abbrev TETROMINO_COUNT : Nat := 7

inductive Color where
  | NONE
  | LIGHT_BLUE
  | BLUE
  | ORANGE
  | YELLOW
  | GREEN
  | PURPLE
  | RED
  deriving DecidableEq, Repr

/-- A piece grid, `Color[TETROMINO_WIDTH][TETROMINO_WIDTH]`. -/
abbrev Tetromino := Fin 4 → Fin 4 → Color

/-- The board grid, `Color[BOARD_HEIGHT][BOARD_WIDTH]`. -/
abbrev Board := Fin 10 → Fin 8 → Color

/-- Builds a piece grid from its four rows, written as in the source table. -/
def ofRows (rows : List (List Color)) : Tetromino :=
  fun y x => (rows.getD y.val []).getD x.val Color.NONE

open Color in
/-- The table `tetrominoes[TETROMINO_COUNT]`, entry by entry as in the source. -/
def tetrominoes : Fin 7 → Tetromino
  | 0 => ofRows [[LIGHT_BLUE, LIGHT_BLUE, LIGHT_BLUE, LIGHT_BLUE],
                 [NONE, NONE, NONE, NONE],
                 [NONE, NONE, NONE, NONE],
                 [NONE, NONE, NONE, NONE]]
  | 1 => ofRows [[BLUE, NONE, NONE, NONE],
                 [BLUE, BLUE, BLUE, NONE],
                 [NONE, NONE, NONE, NONE],
                 [NONE, NONE, NONE, NONE]]
  | 2 => ofRows [[NONE, NONE, ORANGE, NONE],
                 [ORANGE, ORANGE, ORANGE, NONE],
                 [NONE, NONE, NONE, NONE],
                 [NONE, NONE, NONE, NONE]]
  | 3 => ofRows [[YELLOW, YELLOW, NONE, NONE],
                 [YELLOW, YELLOW, NONE, NONE],
                 [NONE, NONE, NONE, NONE],
                 [NONE, NONE, NONE, NONE]]
  | 4 => ofRows [[NONE, GREEN, GREEN, NONE],
                 [GREEN, GREEN, NONE, NONE],
                 [NONE, NONE, NONE, NONE],
                 [NONE, NONE, NONE, NONE]]
  | 5 => ofRows [[NONE, PURPLE, NONE, NONE],
                 [PURPLE, PURPLE, PURPLE, NONE],
                 [NONE, NONE, NONE, NONE],
                 [NONE, NONE, NONE, NONE]]
  | 6 => ofRows [[NONE, RED, RED, NONE],
                 [RED, RED, NONE, NONE],
                 [NONE, NONE, NONE, NONE],
                 [NONE, NONE, NONE, NONE]]

/-- The table `tetromino_sizes[TETROMINO_COUNT] = { 4, 3, 3, 2, 3, 3, 3 }`. -/
def tetromino_sizes : Fin 7 → Int
  | 0 => 4
  | 1 => 3
  | 2 => 3
  | 3 => 2
  | 4 => 3
  | 5 => 3
  | 6 => 3

inductive State where
  | RUNNING
  | LOSED
  deriving DecidableEq, Repr

inductive Result where
  | OK
  | OVERLAP_Y
  | OVERLAP_X
  | COLLIDED
  deriving DecidableEq, Repr

/-- The global variables of the program. -/
structure Game where
  current_state : State
  current_y : Int
  current_x : Int
  current_tetromino : Tetromino
  current_tetromino_size : Int
  board : Board

/-! ## Array access at `int` indices -/

/-- Reads `board[y][x]`. -/
def boardAt (b : Board) (y x : Int) : Color :=
  if h : 0 ≤ y ∧ y < 10 ∧ 0 ≤ x ∧ x < 8 then
    b ⟨y.toNat, by omega⟩ ⟨x.toNat, by omega⟩
  else Color.NONE

/-- Performs `board[y][x] = c`. -/
def setCell (b : Board) (y x : Int) (c : Color) : Board :=
  fun r k => if (r.val : Int) = y ∧ (k.val : Int) = x then c else b r k

/-- Performs `memcpy(&board[dst], &board[src], sizeof board[dst])`. -/
def copyRow (b : Board) (dst src : Int) : Board :=
  fun r k => if (r.val : Int) = dst then boardAt b src k.val else b r k

/-- Reads `t[y][x]` of a piece grid. -/
def tetAt (t : Tetromino) (y x : Int) : Color :=
  if h : 0 ≤ y ∧ y < 4 ∧ 0 ≤ x ∧ x < 4 then
    t ⟨y.toNat, by omega⟩ ⟨x.toNat, by omega⟩
  else Color.NONE

/-- Performs `t[y][x] = c` on a piece grid. -/
def setTet (t : Tetromino) (y x : Int) (c : Color) : Tetromino :=
  fun r k => if (r.val : Int) = y ∧ (k.val : Int) = x then c else t r k

/-! ## `between` and `check` -/

/-- The source's `between`: `lo<=v && v<=hi`. -/
def between (v lo hi : Int) : Bool :=
  decide (lo ≤ v) && decide (v ≤ hi)

/-- The local coordinates `(y, x)` in the order of the nested loops
`for y in 0..3, for x in 0..3`. -/
def cells : List (Fin 4 × Fin 4) :=
  (List.finRange 4).flatMap fun y => (List.finRange 4).map fun x => (y, x)

/-- The body of the loops of `check` at one cell; `OK` stands for falling
through to the next iteration. -/
def checkCell (g : Game) (y x : Fin 4) : Result :=
  if g.current_tetromino y x = Color.NONE then Result.OK
  else if !between (g.current_y + y.val) 0 (BOARD_HEIGHT - 1) then Result.OVERLAP_Y
  else if !between (g.current_x + x.val) 0 (BOARD_WIDTH - 1) then Result.OVERLAP_X
  else if boardAt g.board (g.current_y + y.val) (g.current_x + x.val) ≠ Color.NONE then
    Result.COLLIDED
  else Result.OK

/-- The loops of `check` over the remaining cells: the first cell whose body
returns ends the scan. -/
def checkScan (g : Game) : List (Fin 4 × Fin 4) → Result
  | [] => Result.OK
  | p :: rest =>
    match checkCell g p.1 p.2 with
    | Result.OK => checkScan g rest
    | r => r

/-- The source's `check`. -/
def check (g : Game) : Result :=
  checkScan g cells

/-! ## `write_tetromino` -/

/-- The body of the loops of `write_tetromino` at one cell. -/
def writeCell (g : Game) (b : Board) (p : Fin 4 × Fin 4) : Board :=
  if g.current_tetromino p.1 p.2 = Color.NONE then b
  else setCell b (g.current_y + p.1.val) (g.current_x + p.2.val) (g.current_tetromino p.1 p.2)

/-- The source's `write_tetromino`. -/
def write_tetromino (g : Game) : Game :=
  { g with board := cells.foldl (writeCell g) g.board }

/-! ## `rotate` -/

/-- The assignment in the loops of `rotate` at `(y, x)`, for size `n`. -/
def rotateCell (direction : Bool) (n : Int) (old_tetromino new_tetromino : Tetromino)
    (y x : Nat) : Tetromino :=
  setTet new_tetromino y x
    (if direction then tetAt old_tetromino (n - x - 1) y
     else tetAt old_tetromino x (n - y - 1))

/-- The inner loop of `rotate`, `for x in 0..n-1`, at row `y`. -/
def rotateRow (direction : Bool) (n : Int) (old_tetromino new_tetromino : Tetromino)
    (y : Nat) : Tetromino :=
  (List.range n.toNat).foldl
    (fun acc x => rotateCell direction n old_tetromino acc y x) new_tetromino

/-- The two loops of `rotate`: `new_tetromino` starts as a copy of the current
grid and receives one assignment per cell of the `n × n` box. -/
def rotateLoop (direction : Bool) (n : Int) (old_tetromino : Tetromino) : Tetromino :=
  (List.range n.toNat).foldl
    (fun acc y => rotateRow direction n old_tetromino acc y) old_tetromino

/-- The state of `rotate` right after the candidate grid is installed, before
the placement check. -/
def rotate_candidate (direction : Bool) (g : Game) : Game :=
  { g with current_tetromino :=
      rotateLoop direction g.current_tetromino_size g.current_tetromino }

/-- The source's `rotate`. -/
def rotate (direction : Bool) (g : Game) : Game :=
  let old_tetromino := g.current_tetromino
  let g1 := rotate_candidate direction g
  if check g1 ≠ Result.OK then { g1 with current_tetromino := old_tetromino } else g1

/-! ## `eliminate_lines` -/

/-- The inner loop of `eliminate_lines`: the flag `eliminate` for row `y`. -/
def rowFull (b : Board) (y : Int) : Bool :=
  (List.range BOARD_WIDTH.toNat).all fun x => boardAt b y x != Color.NONE

/-- The outer loop of `eliminate_lines` on the pair `(board, write_y)`;
`eliminateLoop (y + 1)` runs the iterations `y, y-1, ..., 0`. -/
def eliminateLoop : Nat → Board × Int → Board × Int
  | 0, st => st
  | y + 1, (b, write_y) =>
    if rowFull b y then eliminateLoop y (b, write_y)
    else eliminateLoop y ((if write_y ≠ y then copyRow b write_y y else b), write_y - 1)

/-- The effect of `eliminate_lines` on the board: `write_y` starts at
`BOARD_HEIGHT-1` and the loop runs from `y = BOARD_HEIGHT-1` down to 0. -/
def eliminateBoard (b : Board) : Board :=
  (eliminateLoop BOARD_HEIGHT.toNat (b, BOARD_HEIGHT - 1)).1

/-- The source's `eliminate_lines`. -/
def eliminate_lines (g : Game) : Game :=
  { g with board := eliminateBoard g.board }

/-! ## `select_next_tetromino` and `move` -/

/-- The state of `select_next_tetromino` after its assignments, before the
placement check; `r` is the value of `rand()`. -/
def spawn_candidate (r : Nat) (g : Game) : Game :=
  let i : Fin 7 := ⟨r % TETROMINO_COUNT, Nat.mod_lt r (by decide)⟩
  { g with
    current_y := 0
    current_x := (BOARD_WIDTH - TETROMINO_WIDTH) / 2
    current_tetromino := tetrominoes i
    current_tetromino_size := tetromino_sizes i }

/-- The source's `select_next_tetromino`; `r` is the value of `rand()`. -/
def select_next_tetromino (r : Nat) (g : Game) : Game :=
  let g1 : Game := spawn_candidate r g
  if check g1 ≠ Result.OK then { g1 with current_state := State.LOSED } else g1

/-- The state of `move` after the two offsets are added, before the placement
check. -/
def move_candidate (y_offset x_offset : Int) (g : Game) : Game :=
  { g with current_y := g.current_y + y_offset, current_x := g.current_x + x_offset }

/-- The source's `move`; `r` is the value `rand()` returns if the piece locks. -/
def move (y_offset x_offset : Int) (r : Nat) (g : Game) : Game :=
  let g1 : Game := move_candidate y_offset x_offset g
  let result := check g1
  if result = Result.OK then g1
  else
    let g2 : Game :=
      { g1 with current_y := g1.current_y - y_offset, current_x := g1.current_x - x_offset }
    if result = Result.OVERLAP_X then g2
    else select_next_tetromino r (eliminate_lines (write_tetromino g2))

/-! ## Runs of the program -/

/-- The globals at program start: zero-initialised, `current_state = RUNNING`. -/
def initial : Game :=
  { current_state := State.RUNNING
    current_y := 0
    current_x := 0
    current_tetromino := fun _ _ => Color.NONE
    current_tetromino_size := 0
    board := fun _ _ => Color.NONE }

/-- The state after the first `select_next_tetromino()` of `main`. -/
def fresh (r : Nat) : Game :=
  select_next_tetromino r initial

/-- The states reached from a fresh game by rotations and by the three moves
the driver issues, with any values of `rand()`. -/
inductive Reachable : Game → Prop where
  | fresh (r : Nat) : Reachable (fresh r)
  | rotate (direction : Bool) {g : Game} : Reachable g → Reachable (rotate direction g)
  | left (r : Nat) {g : Game} : Reachable g → Reachable (move 0 (-1) r g)
  | right (r : Nat) {g : Game} : Reachable g → Reachable (move 0 1 r g)
  | down (r : Nat) {g : Game} : Reachable g → Reachable (move 1 0 r g)

/-- The no-overlap condition in words: every non-empty cell of the active piece
lies on the board and on an empty board cell. -/
def NoOverlap (g : Game) : Prop :=
  ∀ dy dx : Fin 4, g.current_tetromino dy dx ≠ Color.NONE →
    0 ≤ g.current_y + dy.val ∧ g.current_y + dy.val < 10 ∧
    0 ≤ g.current_x + dx.val ∧ g.current_x + dx.val < 8 ∧
    boardAt g.board (g.current_y + dy.val) (g.current_x + dx.val) = Color.NONE

/-! ## Concrete boards and states -/

/-- Builds a board from its ten rows, top row first. -/
def boardOfRows (rows : List (List Color)) : Board :=
  fun y x => (rows.getD y.val []).getD x.val Color.NONE

open Color in
/-- A running game in which a square piece hangs at rows 7..8, columns 2..3,
beside a locked square at rows 8..9, columns 0..1.  It is reached in play by
dropping a first square along the left wall and lowering the next one seven
rows from its spawn position. -/
def bumpState : Game :=
  { current_state := State.RUNNING
    current_y := 7
    current_x := 2
    current_tetromino := tetrominoes 3
    current_tetromino_size := 2
    board := boardOfRows
      [[NONE, NONE, NONE, NONE, NONE, NONE, NONE, NONE],
       [NONE, NONE, NONE, NONE, NONE, NONE, NONE, NONE],
       [NONE, NONE, NONE, NONE, NONE, NONE, NONE, NONE],
       [NONE, NONE, NONE, NONE, NONE, NONE, NONE, NONE],
       [NONE, NONE, NONE, NONE, NONE, NONE, NONE, NONE],
       [NONE, NONE, NONE, NONE, NONE, NONE, NONE, NONE],
       [NONE, NONE, NONE, NONE, NONE, NONE, NONE, NONE],
       [NONE, NONE, NONE, NONE, NONE, NONE, NONE, NONE],
       [YELLOW, YELLOW, NONE, NONE, NONE, NONE, NONE, NONE],
       [YELLOW, YELLOW, NONE, NONE, NONE, NONE, NONE, NONE]] }

/-! ## Vocabulary for the row clear -/

/-- A row is full iff each of its 8 cells is non-empty. -/
def isFull (b : Board) (y : Fin 10) : Prop :=
  ∀ x : Fin 8, b y x ≠ Color.NONE

instance (b : Board) (y : Fin 10) : Decidable (isFull b y) := by
  unfold isFull
  infer_instance

/-- The number of full rows with index at least `y`. -/
def fullFrom (b : Board) (y : Nat) : Nat :=
  (Finset.univ.filter (fun j : Fin 10 => y ≤ j.val ∧ isFull b j)).card

/-- The number of full rows with index greater than `y`. -/
def fullBelow (b : Board) (y : Fin 10) : Nat :=
  (Finset.univ.filter (fun j : Fin 10 => y < j ∧ isFull b j)).card

/-- The number of full rows of the board. -/
def fullCount (b : Board) : Nat :=
  (Finset.univ.filter (fun j : Fin 10 => isFull b j)).card

/-- A row, as a value, has an empty cell. -/
def rowNotFull (row : Fin 8 → Color) : Bool :=
  decide (∃ x : Fin 8, row x = Color.NONE)

/-- The rows of a board, top row first. -/
def rowsOf (b : Board) : List (Fin 8 → Color) :=
  List.ofFn b

/-- The loop invariant of `eliminate_lines` before the iteration `y - 1`, for
the input board `b` and the loop state `st = (board, write_y)`. -/
structure ElimInv (b : Board) (y : Nat) (st : Board × Int) : Prop where
  w_eq : st.2 = (y : Int) - 1 + fullFrom b y
  w_le : st.2 ≤ 9
  untouched : ∀ j : Fin 10, (j.val : Int) ≤ st.2 → st.1 j = b j
  placed : ∀ j : Fin 10, y ≤ j.val → ¬ isFull b j →
    ∃ z : Fin 10, z.val = j.val + fullBelow b j ∧ st.2 < z.val ∧ st.1 z = b j
  rows : (rowsOf st.1).drop (st.2 + 1).toNat = ((rowsOf b).drop y).filter rowNotFull

open Color in
/-- A board whose bottom row is full and whose top row holds one block. -/
def clearBoard : Board :=
  boardOfRows
    [[RED, NONE, NONE, NONE, NONE, NONE, NONE, NONE],
     [NONE, NONE, NONE, NONE, NONE, NONE, NONE, NONE],
     [NONE, NONE, NONE, NONE, NONE, NONE, NONE, NONE],
     [NONE, NONE, NONE, NONE, NONE, NONE, NONE, NONE],
     [NONE, NONE, NONE, NONE, NONE, NONE, NONE, NONE],
     [NONE, NONE, NONE, NONE, NONE, NONE, NONE, NONE],
     [NONE, NONE, NONE, NONE, NONE, NONE, NONE, NONE],
     [NONE, NONE, NONE, NONE, NONE, NONE, NONE, NONE],
     [NONE, GREEN, GREEN, NONE, NONE, NONE, NONE, NONE],
     [BLUE, BLUE, BLUE, GREEN, GREEN, YELLOW, YELLOW, RED]]

open Color in
/-- A running game whose board has ten equal rows, two squares wide on either
side of a four-column shaft, with the line piece lying on the floor of the
shaft.  It is reached in play by stacking five squares along each wall and
lowering a line piece through the shaft. -/
def shaftState : Game :=
  { current_state := State.RUNNING
    current_y := 9
    current_x := 2
    current_tetromino := tetrominoes 0
    current_tetromino_size := 4
    board := boardOfRows
      [[YELLOW, YELLOW, NONE, NONE, NONE, NONE, YELLOW, YELLOW],
       [YELLOW, YELLOW, NONE, NONE, NONE, NONE, YELLOW, YELLOW],
       [YELLOW, YELLOW, NONE, NONE, NONE, NONE, YELLOW, YELLOW],
       [YELLOW, YELLOW, NONE, NONE, NONE, NONE, YELLOW, YELLOW],
       [YELLOW, YELLOW, NONE, NONE, NONE, NONE, YELLOW, YELLOW],
       [YELLOW, YELLOW, NONE, NONE, NONE, NONE, YELLOW, YELLOW],
       [YELLOW, YELLOW, NONE, NONE, NONE, NONE, YELLOW, YELLOW],
       [YELLOW, YELLOW, NONE, NONE, NONE, NONE, YELLOW, YELLOW],
       [YELLOW, YELLOW, NONE, NONE, NONE, NONE, YELLOW, YELLOW],
       [YELLOW, YELLOW, NONE, NONE, NONE, NONE, YELLOW, YELLOW]] }

open Color in
/-- A running game on the empty board in which the line piece stands
vertically in column 7, against the right wall.  It is reached in play by one
counter-clockwise rotation of the spawned line piece and five moves right. -/
def wallState : Game :=
  { current_state := State.RUNNING
    current_y := 0
    current_x := 7
    current_tetromino := ofRows
      [[LIGHT_BLUE, NONE, NONE, NONE],
       [LIGHT_BLUE, NONE, NONE, NONE],
       [LIGHT_BLUE, NONE, NONE, NONE],
       [LIGHT_BLUE, NONE, NONE, NONE]]
    current_tetromino_size := 4
    board := fun _ _ => NONE }

open Color in
/-- The board of `shaftState` with the line piece committed on the floor of
the shaft: the input of the row clear when that piece locks. -/
def shaftFilled : Board :=
  boardOfRows
    [[YELLOW, YELLOW, NONE, NONE, NONE, NONE, YELLOW, YELLOW],
     [YELLOW, YELLOW, NONE, NONE, NONE, NONE, YELLOW, YELLOW],
     [YELLOW, YELLOW, NONE, NONE, NONE, NONE, YELLOW, YELLOW],
     [YELLOW, YELLOW, NONE, NONE, NONE, NONE, YELLOW, YELLOW],
     [YELLOW, YELLOW, NONE, NONE, NONE, NONE, YELLOW, YELLOW],
     [YELLOW, YELLOW, NONE, NONE, NONE, NONE, YELLOW, YELLOW],
     [YELLOW, YELLOW, NONE, NONE, NONE, NONE, YELLOW, YELLOW],
     [YELLOW, YELLOW, NONE, NONE, NONE, NONE, YELLOW, YELLOW],
     [YELLOW, YELLOW, NONE, NONE, NONE, NONE, YELLOW, YELLOW],
     [YELLOW, YELLOW, LIGHT_BLUE, LIGHT_BLUE, LIGHT_BLUE, LIGHT_BLUE, YELLOW, YELLOW]]

/-! ## Command sequences -/

/-- One key command, with the value `rand()` returns if the command locks the
piece: `rot` is the key `r` (with shift for `direction = true`), the others
are the arrow keys left, right and down. -/
inductive Cmd where
  | rot (direction : Bool)
  | left (r : Nat)
  | right (r : Nat)
  | down (r : Nat)

/-- The call a command makes while the game is running. -/
def Cmd.apply : Cmd → Game → Game
  | Cmd.rot direction, g => rotate direction g
  | Cmd.left r, g => move 0 (-1) r g
  | Cmd.right r, g => move 0 1 r g
  | Cmd.down r, g => move 1 0 r g

/-- Runs a sequence of commands, first command first. -/
def run (cs : List Cmd) (g : Game) : Game :=
  cs.foldl (fun a c => c.apply a) g

/-- Two moves left, `n` moves down and one more move down that locks the
piece and spawns piece `r % 7`. -/
def dropLeft (n r : Nat) : List Cmd :=
  [Cmd.left 3, Cmd.left 3] ++ List.replicate n (Cmd.down 3) ++ [Cmd.down r]

/-- Four moves right, `n` moves down and one more move down that locks the
piece and spawns piece `r % 7`. -/
def dropRight (n r : Nat) : List Cmd :=
  List.replicate 4 (Cmd.right 3) ++ List.replicate n (Cmd.down 3) ++ [Cmd.down r]

/-- The play that leads to `bumpState` from a fresh game with a square piece. -/
def bumpCmds : List Cmd :=
  dropLeft 8 3 ++ List.replicate 7 (Cmd.down 3)

/-- The play that leads to `shaftState` from a fresh game with a square piece:
five squares down the left wall, five down the right wall, then the line piece
lowered nine rows. -/
def shaftCmds : List Cmd :=
  dropLeft 8 3 ++ dropLeft 6 3 ++ dropLeft 4 3 ++ dropLeft 2 3 ++ dropLeft 0 3 ++
  dropRight 8 3 ++ dropRight 6 3 ++ dropRight 4 3 ++ dropRight 2 3 ++ dropRight 0 0 ++
  List.replicate 9 (Cmd.down 0)

/-- The play that leads to `wallState` from a fresh game with the line piece. -/
def wallCmds : List Cmd :=
  Cmd.rot false :: List.replicate 5 (Cmd.right 0)

/-! ## Vocabulary for the pieces -/

/-- The number of non-empty cells of a piece grid. -/
def cellCount (t : Tetromino) : Nat :=
  (Finset.univ.filter (fun p : Fin 4 × Fin 4 => t p.1 p.2 ≠ Color.NONE)).card

/-- All non-empty cells of a piece grid carry the same colour. -/
def OneColour (t : Tetromino) : Prop :=
  ∀ y x y1 x1 : Fin 4, t y x ≠ Color.NONE → t y1 x1 ≠ Color.NONE → t y x = t y1 x1

instance (t : Tetromino) : Decidable (OneColour t) := by
  unfold OneColour
  infer_instance

/-- All non-empty cells of a piece grid lie in its top-left `n × n` box. -/
def InBox (t : Tetromino) (n : Int) : Prop :=
  ∀ y x : Fin 4, t y x ≠ Color.NONE → (y.val : Int) < n ∧ (x.val : Int) < n

instance (t : Tetromino) (n : Int) : Decidable (InBox t n) := by
  unfold InBox
  infer_instance

/-! ## The placement check with its board reads -/

/-- The scan of `check` instrumented with the board reads it performs: the
result of the scan, and the indices `(row, column)` of every evaluation of
`board[current_y+y][current_x+x]`, in the order of the source, where the two
`between` tests come before the read. -/
def checkTraced (g : Game) : List (Fin 4 × Fin 4) → Result × List (Int × Int)
  | [] => (Result.OK, [])
  | p :: rest =>
    if g.current_tetromino p.1 p.2 = Color.NONE then checkTraced g rest
    else if !between (g.current_y + p.1.val) 0 (BOARD_HEIGHT - 1) then (Result.OVERLAP_Y, [])
    else if !between (g.current_x + p.2.val) 0 (BOARD_WIDTH - 1) then (Result.OVERLAP_X, [])
    else if boardAt g.board (g.current_y + p.1.val) (g.current_x + p.2.val) ≠ Color.NONE then
      (Result.COLLIDED, [(g.current_y + p.1.val, g.current_x + p.2.val)])
    else
      ((checkTraced g rest).1,
        (g.current_y + p.1.val, g.current_x + p.2.val) :: (checkTraced g rest).2)

/-! ## The driver loop of `main` -/

/-- One event handled by the loop of `main`: the key `r` (`shift` says whether
a shift key is held, the argument passed to `rotate`), the three arrow keys,
and one drained second of the gravity accumulator.  Each carries the value
`rand()` returns if the event locks the piece. -/
inductive Event where
  | key_r (shift : Bool)
  | key_left (r : Nat)
  | key_right (r : Nat)
  | key_down (r : Nat)
  | tick (r : Nat)

/-- The handling of one event in `main`: every call is guarded by
`current_state == State::RUNNING`. -/
def handle : Event → Game → Game
  | Event.key_r shift, g => if g.current_state = State.RUNNING then rotate shift g else g
  | Event.key_left r, g => if g.current_state = State.RUNNING then move 0 (-1) r g else g
  | Event.key_right r, g => if g.current_state = State.RUNNING then move 0 1 r g else g
  | Event.key_down r, g => if g.current_state = State.RUNNING then move 1 0 r g else g
  | Event.tick r, g => if g.current_state = State.RUNNING then move 1 0 r g else g

/-- The handling of a sequence of events, first event first. -/
def handleAll (es : List Event) (g : Game) : Game :=
  es.foldl (fun a e => handle e a) g

/-- The states of a run of the program: the fresh game and every state the
driver reaches from it. -/
inductive DriverReachable : Game → Prop where
  | fresh (r : Nat) : DriverReachable (fresh r)
  | step (e : Event) {g : Game} : DriverReachable g → DriverReachable (handle e g)

/-- The state in which `move` calls `write_tetromino`, if it calls it: the
check of the shifted piece is neither `OK` nor `OVERLAP_X`, and the offsets
have been subtracted again. -/
def move_commit (y_offset x_offset : Int) (g : Game) : Option Game :=
  let g1 : Game := move_candidate y_offset x_offset g
  let result := check g1
  if result = Result.OK then none
  else
    let g2 : Game :=
      { g1 with current_y := g1.current_y - y_offset, current_x := g1.current_x - x_offset }
    if result = Result.OVERLAP_X then none
    else some g2

/-- The state in which the handling of an event calls `write_tetromino`, if it
calls it. -/
def handle_commit : Event → Game → Option Game
  | Event.key_r _, _ => none
  | Event.key_left _, g => if g.current_state = State.RUNNING then move_commit 0 (-1) g else none
  | Event.key_right _, g => if g.current_state = State.RUNNING then move_commit 0 1 g else none
  | Event.key_down _, g => if g.current_state = State.RUNNING then move_commit 1 0 g else none
  | Event.tick _, g => if g.current_state = State.RUNNING then move_commit 1 0 g else none

open Color in
/-- A lost game: squares stacked in columns 2..3 up to the top row, and the
line piece spawned on top of them.  It is reached in play by lowering five
squares straight down. -/
def lostState : Game :=
  { current_state := State.LOSED
    current_y := 0
    current_x := 2
    current_tetromino := tetrominoes 0
    current_tetromino_size := 4
    board := boardOfRows
      [[NONE, NONE, YELLOW, YELLOW, NONE, NONE, NONE, NONE],
       [NONE, NONE, YELLOW, YELLOW, NONE, NONE, NONE, NONE],
       [NONE, NONE, YELLOW, YELLOW, NONE, NONE, NONE, NONE],
       [NONE, NONE, YELLOW, YELLOW, NONE, NONE, NONE, NONE],
       [NONE, NONE, YELLOW, YELLOW, NONE, NONE, NONE, NONE],
       [NONE, NONE, YELLOW, YELLOW, NONE, NONE, NONE, NONE],
       [NONE, NONE, YELLOW, YELLOW, NONE, NONE, NONE, NONE],
       [NONE, NONE, YELLOW, YELLOW, NONE, NONE, NONE, NONE],
       [NONE, NONE, YELLOW, YELLOW, NONE, NONE, NONE, NONE],
       [NONE, NONE, YELLOW, YELLOW, NONE, NONE, NONE, NONE]] }

/-- The events that lead to `lostState` from a fresh game with a square piece:
each square is lowered as far as it goes and locked by one more key down. -/
def lostEvents : List Event :=
  List.replicate 9 (Event.key_down 3) ++ List.replicate 7 (Event.key_down 3) ++
  List.replicate 5 (Event.key_down 3) ++ List.replicate 3 (Event.key_down 3) ++
  [Event.tick 0]

/-- The events that lead to `bumpState` from a fresh game with a square piece. -/
def bumpEvents : List Event :=
  [Event.key_left 3, Event.key_left 3] ++ List.replicate 9 (Event.key_down 3) ++
  List.replicate 7 (Event.tick 3)

/-- The reference compaction of the specification, as a list of rows: as many
Empty rows as the board has full rows, followed by the non-full rows of the
board in their original order. -/
def referenceCompaction (b : Board) : List (Fin 8 → Color) :=
  List.replicate (fullCount b) (fun _ => Color.NONE) ++ (rowsOf b).filter rowNotFull

/-- The catalogue shape `i` after `k` clockwise rotations inside its box. -/
def orientation (i : Fin 7) (k : Fin 4) : Tetromino :=
  (rotateLoop true (tetromino_sizes i))^[k.val] (tetrominoes i)

/-- The active piece is a catalogue shape in one of its four orientations,
with the size of that shape. -/
def IsPiece (g : Game) : Prop :=
  ∃ (i : Fin 7) (k : Fin 4),
    g.current_tetromino_size = tetromino_sizes i ∧ g.current_tetromino = orientation i k

/-! ## Basic facts about the placement check -/

theorem cells_eq : cells =
    [(0,0),(0,1),(0,2),(0,3),(1,0),(1,1),(1,2),(1,3),
     (2,0),(2,1),(2,2),(2,3),(3,0),(3,1),(3,2),(3,3)] := by
  decide

theorem mem_cells (p : Fin 4 × Fin 4) : p ∈ cells := by
  rw [cells_eq]
  revert p
  decide

theorem checkScan_eq_OK_iff (g : Game) (l : List (Fin 4 × Fin 4)) :
    checkScan g l = Result.OK ↔ ∀ p ∈ l, checkCell g p.1 p.2 = Result.OK := by
  induction l with
  | nil => simp [checkScan]
  | cons p rest ih =>
    simp only [checkScan, List.mem_cons, forall_eq_or_imp]
    cases h : checkCell g p.1 p.2 <;> simp [ih]

/-- The body of `check` at one cell as a chain of propositional tests. -/
theorem checkCell_eq (g : Game) (y x : Fin 4) :
    checkCell g y x =
      if g.current_tetromino y x = Color.NONE then Result.OK
      else if ¬ (0 ≤ g.current_y + y.val ∧ g.current_y + y.val < 10) then Result.OVERLAP_Y
      else if ¬ (0 ≤ g.current_x + x.val ∧ g.current_x + x.val < 8) then Result.OVERLAP_X
      else if boardAt g.board (g.current_y + y.val) (g.current_x + x.val) ≠ Color.NONE then
        Result.COLLIDED
      else Result.OK := by
  have hy : between (g.current_y + y.val) 0 (BOARD_HEIGHT - 1) = true ↔
      (0 ≤ g.current_y + y.val ∧ g.current_y + y.val < 10) := by
    simp only [between, BOARD_HEIGHT, Bool.and_eq_true, decide_eq_true_eq]
    omega
  have hx : between (g.current_x + x.val) 0 (BOARD_WIDTH - 1) = true ↔
      (0 ≤ g.current_x + x.val ∧ g.current_x + x.val < 8) := by
    simp only [between, BOARD_WIDTH, Bool.and_eq_true, decide_eq_true_eq]
    omega
  unfold checkCell
  by_cases h0 : g.current_tetromino y x = Color.NONE
  · simp only [h0, if_true]
  · by_cases h1 : 0 ≤ g.current_y + y.val ∧ g.current_y + y.val < 10
    · by_cases h2 : 0 ≤ g.current_x + x.val ∧ g.current_x + x.val < 8
      · simp only [h0, hy.2 h1, hx.2 h2, h1, h2, if_false, Bool.not_true, Bool.false_eq_true,
          not_true_eq_false, and_self]
      · have e : between (g.current_x + x.val) 0 (BOARD_WIDTH - 1) = false := by
          rw [Bool.eq_false_iff]; exact fun h => h2 (hx.1 h)
        simp only [h0, hy.2 h1, e, h1, h2, if_false, Bool.not_true, Bool.false_eq_true,
          not_true_eq_false, and_self, Bool.not_false, if_true, not_false_eq_true]
    · have e : between (g.current_y + y.val) 0 (BOARD_HEIGHT - 1) = false := by
        rw [Bool.eq_false_iff]; exact fun h => h1 (hy.1 h)
      simp only [h0, e, h1, if_false, Bool.not_false, if_true, not_false_eq_true]

theorem checkCell_eq_OK_iff (g : Game) (y x : Fin 4) :
    checkCell g y x = Result.OK ↔
      (g.current_tetromino y x ≠ Color.NONE →
        0 ≤ g.current_y + y.val ∧ g.current_y + y.val < 10 ∧
        0 ≤ g.current_x + x.val ∧ g.current_x + x.val < 8 ∧
        boardAt g.board (g.current_y + y.val) (g.current_x + x.val) = Color.NONE) := by
  rw [checkCell_eq]
  by_cases h0 : g.current_tetromino y x = Color.NONE
  · simp [h0]
  · by_cases h1 : 0 ≤ g.current_y + y.val ∧ g.current_y + y.val < 10
    · by_cases h2 : 0 ≤ g.current_x + x.val ∧ g.current_x + x.val < 8
      · by_cases h3 : boardAt g.board (g.current_y + y.val) (g.current_x + x.val) = Color.NONE
        · simp [h0, h1, h2, h3]
        · simp [h0, h1, h2, h3]
      · rw [if_neg h0, if_neg (not_not_intro h1), if_pos h2]
        constructor
        · intro h; cases h
        · intro h; exact absurd ⟨(h h0).2.2.1, (h h0).2.2.2.1⟩ h2
    · rw [if_neg h0, if_pos h1]
      constructor
      · intro h; cases h
      · intro h; exact absurd ⟨(h h0).1, (h h0).2.1⟩ h1

theorem check_eq_OK_iff (g : Game) : check g = Result.OK ↔ NoOverlap g := by
  unfold check NoOverlap
  rw [checkScan_eq_OK_iff]
  constructor
  · intro h dy dx hne
    exact (checkCell_eq_OK_iff g dy dx).1 (h (dy, dx) (mem_cells _)) hne
  · intro h p _
    exact (checkCell_eq_OK_iff g p.1 p.2).2 (h p.1 p.2)

theorem checkCell_congr {g h : Game} (ht : g.current_tetromino = h.current_tetromino)
    (hy : g.current_y = h.current_y) (hx : g.current_x = h.current_x)
    (hb : g.board = h.board) (y x : Fin 4) : checkCell g y x = checkCell h y x := by
  unfold checkCell
  rw [ht, hy, hx, hb]

/-- The placement check reads the piece grid, the anchor and the board only. -/
theorem check_congr {g h : Game} (ht : g.current_tetromino = h.current_tetromino)
    (hy : g.current_y = h.current_y) (hx : g.current_x = h.current_x)
    (hb : g.board = h.board) : check g = check h := by
  unfold check
  induction cells with
  | nil => rfl
  | cons p rest ih =>
    simp only [checkScan]
    rw [checkCell_congr ht hy hx hb, ih]

/-! ## Case analysis of `rotate`, `select_next_tetromino` and `move` -/

theorem rotate_of_ok (d : Bool) (g : Game) (h : check (rotate_candidate d g) = Result.OK) :
    rotate d g = rotate_candidate d g := by
  simp [rotate, h]

theorem rotate_of_not_ok (d : Bool) (g : Game) (h : check (rotate_candidate d g) ≠ Result.OK) :
    rotate d g = g := by
  unfold rotate
  simp only
  rw [if_pos h]
  cases g
  rfl

theorem move_of_ok (dy dx : Int) (r : Nat) (g : Game)
    (h : check (move_candidate dy dx g) = Result.OK) :
    move dy dx r g = move_candidate dy dx g := by
  simp [move, h]

theorem move_undo (dy dx : Int) (g : Game) :
    ({ move_candidate dy dx g with
        current_y := (move_candidate dy dx g).current_y - dy
        current_x := (move_candidate dy dx g).current_x - dx } : Game) = g := by
  cases g
  simp [move_candidate]

theorem move_of_overlap_x (dy dx : Int) (r : Nat) (g : Game)
    (h : check (move_candidate dy dx g) = Result.OVERLAP_X) :
    move dy dx r g = g := by
  simp only [move, h, reduceCtorEq, if_false, if_true]
  exact move_undo dy dx g

theorem move_of_lock (dy dx : Int) (r : Nat) (g : Game)
    (h1 : check (move_candidate dy dx g) ≠ Result.OK)
    (h2 : check (move_candidate dy dx g) ≠ Result.OVERLAP_X) :
    move dy dx r g = select_next_tetromino r (eliminate_lines (write_tetromino g)) := by
  simp only [move, h1, h2, if_false]
  rw [move_undo]

/-- After a spawn, a running game has a piece that passes the placement check. -/
theorem select_next_tetromino_check (r : Nat) (g : Game)
    (h : (select_next_tetromino r g).current_state = State.RUNNING) :
    check (select_next_tetromino r g) = Result.OK := by
  unfold select_next_tetromino at h ⊢
  simp only at h ⊢
  by_cases hc : check (spawn_candidate r g) = Result.OK
  · rw [if_neg (not_not_intro hc)]; exact hc
  · rw [if_pos hc] at h; cases h

theorem rotate_check (d : Bool) (g : Game)
    (hg : g.current_state = State.RUNNING → check g = Result.OK)
    (h : (rotate d g).current_state = State.RUNNING) : check (rotate d g) = Result.OK := by
  by_cases hc : check (rotate_candidate d g) = Result.OK
  · rw [rotate_of_ok d g hc]; exact hc
  · rw [rotate_of_not_ok d g hc] at h ⊢; exact hg h

theorem move_check (dy dx : Int) (r : Nat) (g : Game)
    (hg : g.current_state = State.RUNNING → check g = Result.OK)
    (h : (move dy dx r g).current_state = State.RUNNING) :
    check (move dy dx r g) = Result.OK := by
  by_cases hc : check (move_candidate dy dx g) = Result.OK
  · rw [move_of_ok dy dx r g hc]; exact hc
  · by_cases hx : check (move_candidate dy dx g) = Result.OVERLAP_X
    · rw [move_of_overlap_x dy dx r g hx] at h ⊢; exact hg h
    · rw [move_of_lock dy dx r g hc hx] at h ⊢
      exact select_next_tetromino_check r _ h

theorem reachable_check {g : Game} (hr : Reachable g)
    (h : g.current_state = State.RUNNING) : check g = Result.OK := by
  induction hr with
  | fresh r => exact select_next_tetromino_check r _ h
  | rotate d _ ih => exact rotate_check d _ ih h
  | left r _ ih => exact move_check 0 (-1) r _ ih h
  | right r _ ih => exact move_check 0 1 r _ ih h
  | down r _ ih => exact move_check 1 0 r _ ih h

/-- C1 (no-overlap invariant): in every state reached from a fresh game by
rotations and by the moves left, right and down, under any values of `rand()`,
if the game is running then the placement check is `OK`, that is, every
non-empty cell of the active piece lies in rows 0..9 and columns 0..7 on an
empty board cell. -/
theorem no_overlap_invariant (g : Game) (hr : Reachable g)
    (h : g.current_state = State.RUNNING) :
    check g = Result.OK ∧
    ∀ dy dx : Fin 4, g.current_tetromino dy dx ≠ Color.NONE →
      0 ≤ g.current_y + dy.val ∧ g.current_y + dy.val < 10 ∧
      0 ≤ g.current_x + dx.val ∧ g.current_x + dx.val < 8 ∧
      boardAt g.board (g.current_y + dy.val) (g.current_x + dx.val) = Color.NONE :=
  ⟨reachable_check hr h, (check_eq_OK_iff g).1 (reachable_check hr h)⟩

theorem no_overlap_invariant_witness :
    Reachable (move 0 (-1) 5 (fresh 3)) ∧
    (move 0 (-1) 5 (fresh 3)).current_state = State.RUNNING ∧
    check (move 0 (-1) 5 (fresh 3)) = Result.OK :=
  ⟨Reachable.left 5 (Reachable.fresh 3), by decide,
   (no_overlap_invariant _ (Reachable.left 5 (Reachable.fresh 3)) (by decide)).1⟩

theorem select_next_tetromino_board (r : Nat) (g : Game) :
    (select_next_tetromino r g).board = g.board := by
  unfold select_next_tetromino
  simp only
  split_ifs <;> rfl

/-! ## Plays that reach the concrete states -/

theorem reachable_run (cs : List Cmd) (g : Game) (h : Reachable g) : Reachable (run cs g) := by
  unfold run
  induction cs generalizing g with
  | nil => exact h
  | cons c cs ih =>
    rw [List.foldl_cons]
    apply ih
    cases c with
    | rot d => exact Reachable.rotate d h
    | left r => exact Reachable.left r h
    | right r => exact Reachable.right r h
    | down r => exact Reachable.down r h

theorem game_ext {g h : Game} (h1 : g.current_state = h.current_state)
    (h2 : g.current_y = h.current_y) (h3 : g.current_x = h.current_x)
    (h4 : g.current_tetromino = h.current_tetromino)
    (h5 : g.current_tetromino_size = h.current_tetromino_size) (h6 : g.board = h.board) :
    g = h := by
  cases g
  cases h
  simp_all

theorem bumpState_eq : run bumpCmds (fresh 3) = bumpState := by
  have h : (run bumpCmds (fresh 3)).current_state = bumpState.current_state ∧
      (run bumpCmds (fresh 3)).current_y = bumpState.current_y ∧
      (run bumpCmds (fresh 3)).current_x = bumpState.current_x ∧
      (run bumpCmds (fresh 3)).current_tetromino = bumpState.current_tetromino ∧
      (run bumpCmds (fresh 3)).current_tetromino_size = bumpState.current_tetromino_size ∧
      (run bumpCmds (fresh 3)).board = bumpState.board := by
    decide!
  exact game_ext h.1 h.2.1 h.2.2.1 h.2.2.2.1 h.2.2.2.2.1 h.2.2.2.2.2

theorem bumpState_reachable : Reachable bumpState := by
  rw [← bumpState_eq]
  exact reachable_run _ _ (Reachable.fresh 3)

set_option maxHeartbeats 4000000 in
theorem shaftState_eq : run shaftCmds (fresh 3) = shaftState := by
  have h : (run shaftCmds (fresh 3)).current_state = shaftState.current_state ∧
      (run shaftCmds (fresh 3)).current_y = shaftState.current_y ∧
      (run shaftCmds (fresh 3)).current_x = shaftState.current_x ∧
      (run shaftCmds (fresh 3)).current_tetromino = shaftState.current_tetromino ∧
      (run shaftCmds (fresh 3)).current_tetromino_size = shaftState.current_tetromino_size ∧
      (run shaftCmds (fresh 3)).board = shaftState.board := by
    decide!
  exact game_ext h.1 h.2.1 h.2.2.1 h.2.2.2.1 h.2.2.2.2.1 h.2.2.2.2.2

theorem shaftState_reachable : Reachable shaftState := by
  rw [← shaftState_eq]
  exact reachable_run _ _ (Reachable.fresh 3)

theorem wallState_eq : run wallCmds (fresh 0) = wallState := by
  have h : (run wallCmds (fresh 0)).current_state = wallState.current_state ∧
      (run wallCmds (fresh 0)).current_y = wallState.current_y ∧
      (run wallCmds (fresh 0)).current_x = wallState.current_x ∧
      (run wallCmds (fresh 0)).current_tetromino = wallState.current_tetromino ∧
      (run wallCmds (fresh 0)).current_tetromino_size = wallState.current_tetromino_size ∧
      (run wallCmds (fresh 0)).board = wallState.board := by
    decide!
  exact game_ext h.1 h.2.1 h.2.2.1 h.2.2.2.1 h.2.2.2.2.1 h.2.2.2.2.2

theorem wallState_reachable : Reachable wallState := by
  rw [← wallState_eq]
  exact reachable_run _ _ (Reachable.fresh 0)

/-- C2 (sideways bump), evaluated on the code: from the running state
`bumpState`, reached in play and passing the placement check, the move left puts a cell of
the piece on an occupied board cell; the check answers `COLLIDED`, not
`OVERLAP_X`, and `move` locks the piece where it hangs: the board cell at row
7, column 2 turns from `NONE` to `YELLOW`, so the board is not left unchanged. -/
theorem sideways_bump_locks (r : Nat) :
    Reachable bumpState ∧
    bumpState.current_state = State.RUNNING ∧
    check bumpState = Result.OK ∧
    check (move_candidate 0 (-1) bumpState) = Result.COLLIDED ∧
    bumpState.board 7 2 = Color.NONE ∧
    (move 0 (-1) r bumpState).board 7 2 = Color.YELLOW ∧
    (move 0 (-1) r bumpState).board ≠ bumpState.board := by
  have hb : (move 0 (-1) r bumpState).board 7 2 = Color.YELLOW := by
    rw [move_of_lock 0 (-1) r bumpState (by decide) (by decide), select_next_tetromino_board]
    decide
  refine ⟨bumpState_reachable, rfl, by decide, by decide, by decide, hb, ?_⟩
  intro h
  rw [h] at hb
  revert hb
  decide

/-! ## The commit -/

theorem tetAt_coe (t : Tetromino) (y x : Fin 4) : tetAt t y.val x.val = t y x := by
  have hy := y.isLt
  have hx := x.isLt
  unfold tetAt
  rw [dif_pos (by omega)]
  rfl

theorem boardAt_coe (b : Board) (y : Fin 10) (x : Fin 8) : boardAt b y.val x.val = b y x := by
  have hy := y.isLt
  have hx := x.isLt
  unfold boardAt
  rw [dif_pos (by omega)]
  rfl

theorem tetAt_ne_NONE {t : Tetromino} {y x : Int} (h : tetAt t y x ≠ Color.NONE) :
    ∃ p : Fin 4 × Fin 4, (p.1.val : Int) = y ∧ (p.2.val : Int) = x ∧ t p.1 p.2 = tetAt t y x := by
  unfold tetAt at h ⊢
  by_cases hr : 0 ≤ y ∧ y < 4 ∧ 0 ≤ x ∧ x < 4
  · rw [dif_pos hr]
    refine ⟨(⟨y.toNat, by omega⟩, ⟨x.toNat, by omega⟩), ?_, ?_, rfl⟩
    · simp only; omega
    · simp only; omega
  · rw [dif_neg hr] at h
    exact absurd rfl h

/-- The loops of `write_tetromino` over a list of cells, read at one board
cell: the colour of the piece cell that lands there, if one in the list does. -/
theorem foldl_writeCell_apply (g : Game) (l : List (Fin 4 × Fin 4)) (b : Board)
    (y : Fin 10) (x : Fin 8) :
    (l.foldl (writeCell g) b) y x =
      if ∃ p ∈ l, g.current_tetromino p.1 p.2 ≠ Color.NONE ∧
          g.current_y + p.1.val = y.val ∧ g.current_x + p.2.val = x.val then
        tetAt g.current_tetromino (y.val - g.current_y) (x.val - g.current_x)
      else b y x := by
  induction l generalizing b with
  | nil => simp
  | cons p l ih =>
    rw [List.foldl_cons, ih]
    by_cases hl : ∃ q ∈ l, g.current_tetromino q.1 q.2 ≠ Color.NONE ∧
        g.current_y + q.1.val = y.val ∧ g.current_x + q.2.val = x.val
    · have hpl : ∃ q ∈ p :: l, g.current_tetromino q.1 q.2 ≠ Color.NONE ∧
          g.current_y + q.1.val = y.val ∧ g.current_x + q.2.val = x.val := by
        obtain ⟨q, hq, hh⟩ := hl
        exact ⟨q, List.mem_cons_of_mem _ hq, hh⟩
      rw [if_pos hl, if_pos hpl]
    · rw [if_neg hl]
      by_cases hp : g.current_tetromino p.1 p.2 ≠ Color.NONE ∧
          g.current_y + p.1.val = y.val ∧ g.current_x + p.2.val = x.val
      · have hpl : ∃ q ∈ p :: l, g.current_tetromino q.1 q.2 ≠ Color.NONE ∧
            g.current_y + q.1.val = y.val ∧ g.current_x + q.2.val = x.val :=
          ⟨p, List.mem_cons_self _ _, hp⟩
        rw [if_pos hpl]
        have e1 : (y.val : Int) - g.current_y = p.1.val := by omega
        have e2 : (x.val : Int) - g.current_x = p.2.val := by omega
        rw [e1, e2, tetAt_coe]
        unfold writeCell
        rw [if_neg hp.1]
        unfold setCell
        rw [if_pos ⟨hp.2.1.symm, hp.2.2.symm⟩]
      · have hpl : ¬ ∃ q ∈ p :: l, g.current_tetromino q.1 q.2 ≠ Color.NONE ∧
            g.current_y + q.1.val = y.val ∧ g.current_x + q.2.val = x.val := by
          rintro ⟨q, hq, hh⟩
          rcases List.mem_cons.1 hq with rfl | hq
          · exact hp hh
          · exact hl ⟨q, hq, hh⟩
        rw [if_neg hpl]
        unfold writeCell
        by_cases h0 : g.current_tetromino p.1 p.2 = Color.NONE
        · rw [if_pos h0]
        · rw [if_neg h0]
          unfold setCell
          rw [if_neg]
          rintro ⟨h1, h2⟩
          exact hp ⟨h0, h1.symm, h2.symm⟩

/-- The board after `write_tetromino`, cell by cell: the colour of the piece
cell whose image under the anchor is that board cell when it is non-empty, the
old board cell otherwise. -/
theorem write_tetromino_board (g : Game) (y : Fin 10) (x : Fin 8) :
    (write_tetromino g).board y x =
      if tetAt g.current_tetromino (y.val - g.current_y) (x.val - g.current_x) ≠ Color.NONE then
        tetAt g.current_tetromino (y.val - g.current_y) (x.val - g.current_x)
      else g.board y x := by
  unfold write_tetromino
  simp only
  rw [foldl_writeCell_apply]
  by_cases h : tetAt g.current_tetromino (y.val - g.current_y) (x.val - g.current_x) ≠ Color.NONE
  · rw [if_pos h, if_pos]
    obtain ⟨p, h1, h2, h3⟩ := tetAt_ne_NONE h
    refine ⟨p, mem_cells p, ?_, by omega, by omega⟩
    rw [h3]; exact h
  · rw [if_neg h, if_neg]
    rintro ⟨p, _, h1, h2, h3⟩
    apply h
    have e1 : (y.val : Int) - g.current_y = p.1.val := by omega
    have e2 : (x.val : Int) - g.current_x = p.2.val := by omega
    rw [e1, e2, tetAt_coe]
    exact h1

/-! ## The vertical lock -/

theorem checkScan_exists (g : Game) (l : List (Fin 4 × Fin 4)) (h : checkScan g l ≠ Result.OK) :
    ∃ p ∈ l, checkCell g p.1 p.2 = checkScan g l := by
  induction l with
  | nil => exact absurd rfl h
  | cons p rest ih =>
    by_cases hp : checkCell g p.1 p.2 = Result.OK
    · have e : checkScan g (p :: rest) = checkScan g rest := by
        simp only [checkScan, hp]
      rw [e] at h ⊢
      obtain ⟨q, hq, hh⟩ := ih h
      exact ⟨q, List.mem_cons_of_mem _ hq, hh⟩
    · have e : checkScan g (p :: rest) = checkCell g p.1 p.2 := by
        cases hc : checkCell g p.1 p.2 <;> simp_all [checkScan]
      exact ⟨p, List.mem_cons_self _ _, e.symm⟩

/-- A move that changes the row only cannot fail the check with `OVERLAP_X`
when the piece passed the check before the move. -/
theorem check_vertical_ne_OVERLAP_X (dy : Int) (g : Game) (hg : check g = Result.OK) :
    check (move_candidate dy 0 g) ≠ Result.OVERLAP_X := by
  intro hx
  have hne : checkScan (move_candidate dy 0 g) cells ≠ Result.OK := by
    change check (move_candidate dy 0 g) ≠ Result.OK
    rw [hx]; exact fun h => by cases h
  obtain ⟨p, _, hp⟩ := checkScan_exists _ _ hne
  change checkCell _ p.1 p.2 = check (move_candidate dy 0 g) at hp
  rw [hx, checkCell_eq] at hp
  have hinv := (check_eq_OK_iff g).1 hg p.1 p.2
  simp only [move_candidate, add_zero] at hp
  by_cases h0 : g.current_tetromino p.1 p.2 = Color.NONE
  · rw [if_pos h0] at hp; cases hp
  · rw [if_neg h0] at hp
    have hc := hinv h0
    by_cases h1 : 0 ≤ g.current_y + dy + p.1.val ∧ g.current_y + dy + p.1.val < 10
    · rw [if_neg (not_not_intro h1), if_neg (not_not_intro ⟨hc.2.2.1, hc.2.2.2.1⟩)] at hp
      split_ifs at hp
    · rw [if_pos h1] at hp; cases hp

theorem select_next_tetromino_piece (r : Nat) (g : Game) :
    (select_next_tetromino r g).current_tetromino
        = tetrominoes ⟨r % 7, Nat.mod_lt r (by decide)⟩ ∧
    (select_next_tetromino r g).current_tetromino_size
        = tetromino_sizes ⟨r % 7, Nat.mod_lt r (by decide)⟩ ∧
    (select_next_tetromino r g).current_y = 0 ∧
    (select_next_tetromino r g).current_x = 2 := by
  unfold select_next_tetromino
  simp only
  split_ifs <;> exact ⟨rfl, rfl, rfl, rfl⟩

/-- C3 (vertical lock): when the piece passes the placement check and the
piece lowered by one row does not, `move(1, 0)` takes the lock path, never the
revert-only `OVERLAP_X` branch: the new board is the row clear applied to the
board `w` that holds the colour of every non-empty piece cell at its position
under the original anchor and the old board everywhere else, and the active
piece is the catalogue shape `rand() % 7` with its size at anchor row 0,
column 2. -/
theorem vertical_lock (r : Nat) (g : Game) (hg : check g = Result.OK)
    (hfail : check (move_candidate 1 0 g) ≠ Result.OK) :
    check (move_candidate 1 0 g) ≠ Result.OVERLAP_X ∧
    (∃ w : Board,
      (∀ (y : Fin 10) (x : Fin 8),
        w y x =
          if tetAt g.current_tetromino (y.val - g.current_y) (x.val - g.current_x)
              ≠ Color.NONE then
            tetAt g.current_tetromino (y.val - g.current_y) (x.val - g.current_x)
          else g.board y x) ∧
      (move 1 0 r g).board = eliminateBoard w) ∧
    (move 1 0 r g).current_tetromino = tetrominoes ⟨r % 7, Nat.mod_lt r (by decide)⟩ ∧
    (move 1 0 r g).current_tetromino_size
      = tetromino_sizes ⟨r % 7, Nat.mod_lt r (by decide)⟩ ∧
    (move 1 0 r g).current_y = 0 ∧
    (move 1 0 r g).current_x = 2 := by
  have hx := check_vertical_ne_OVERLAP_X 1 g hg
  rw [move_of_lock 1 0 r g hfail hx]
  refine ⟨hx, ⟨(write_tetromino g).board, write_tetromino_board g, ?_⟩,
    select_next_tetromino_piece r _⟩
  rw [select_next_tetromino_board]
  rfl

theorem vertical_lock_witness :
    check bumpState = Result.OK ∧
    check (move_candidate 1 0 (move_candidate 1 0 bumpState)) ≠ Result.OK ∧
    (move 1 0 4 (move_candidate 1 0 bumpState)).current_tetromino = tetrominoes 4 :=
  ⟨by decide, by decide,
   (vertical_lock 4 (move_candidate 1 0 bumpState) (by decide) (by decide)).2.2.1⟩

/-! ## The row clear -/

theorem rowFull_iff (b : Board) (y : Fin 10) : rowFull b y.val = true ↔ isFull b y := by
  unfold rowFull isFull
  have e : BOARD_WIDTH.toNat = 8 := rfl
  rw [e, List.all_eq_true]
  constructor
  · intro h x
    have := h x.val (List.mem_range.2 x.isLt)
    rw [boardAt_coe] at this
    simpa using this
  · intro h x hx
    have hx8 : x < 8 := List.mem_range.1 hx
    have := h ⟨x, hx8⟩
    have e2 : boardAt b y.val (x : Int) = b y ⟨x, hx8⟩ := boardAt_coe b y ⟨x, hx8⟩
    rw [e2]
    simpa using this

theorem copyRow_apply (b : Board) (w : Int) (y j : Fin 10) :
    copyRow b w y.val j = if (j.val : Int) = w then b y else b j := by
  funext k
  unfold copyRow
  simp only [boardAt_coe]
  split_ifs <;> rfl

theorem fullFrom_ten (b : Board) : fullFrom b 10 = 0 := by
  unfold fullFrom
  rw [Finset.card_eq_zero, Finset.filter_eq_empty_iff]
  intro j _ h
  have := j.isLt
  omega

theorem fullBelow_eq (b : Board) (y : Fin 10) : fullBelow b y = fullFrom b (y.val + 1) := by
  rfl

theorem fullFrom_succ_of_full (b : Board) (y : Fin 10) (h : isFull b y) :
    fullFrom b y.val = fullFrom b (y.val + 1) + 1 := by
  unfold fullFrom
  have e : Finset.univ.filter (fun j : Fin 10 => y.val ≤ j.val ∧ isFull b j)
      = insert y (Finset.univ.filter (fun j : Fin 10 => y.val + 1 ≤ j.val ∧ isFull b j)) := by
    ext j
    simp only [Finset.mem_filter, Finset.mem_univ, true_and, Finset.mem_insert]
    constructor
    · intro hj
      by_cases hy : j = y
      · exact Or.inl hy
      · right
        refine ⟨?_, hj.2⟩
        have : j.val ≠ y.val := fun hh => hy (Fin.ext hh)
        omega
    · rintro (rfl | hj)
      · exact ⟨le_refl _, h⟩
      · exact ⟨by omega, hj.2⟩
  rw [e, Finset.card_insert_of_not_mem]
  simp only [Finset.mem_filter, Finset.mem_univ, true_and, not_and]
  intro hh
  omega

theorem fullFrom_succ_of_not_full (b : Board) (y : Fin 10) (h : ¬ isFull b y) :
    fullFrom b y.val = fullFrom b (y.val + 1) := by
  unfold fullFrom
  congr 1
  apply Finset.filter_congr
  intro j _
  constructor
  · intro hj
    refine ⟨?_, hj.2⟩
    have : j.val ≠ y.val := by
      intro hh
      have : j = y := Fin.ext hh
      rw [this] at hj
      exact h hj.2
    omega
  · intro hj
    exact ⟨by omega, hj.2⟩

theorem fullFrom_zero (b : Board) : fullFrom b 0 = fullCount b := by
  unfold fullFrom fullCount
  congr 1
  apply Finset.filter_congr
  intro j _
  simp

theorem rowsOf_length (b : Board) : (rowsOf b).length = 10 := by
  unfold rowsOf
  exact List.length_ofFn b

theorem rowsOf_drop_cons (b : Board) (y : Fin 10) :
    (rowsOf b).drop y.val = b y :: (rowsOf b).drop (y.val + 1) := by
  have h : y.val < (rowsOf b).length := by rw [rowsOf_length]; exact y.isLt
  rw [List.drop_eq_getElem_cons h]
  congr 1
  unfold rowsOf
  rw [List.getElem_ofFn]

theorem rowsOf_drop_congr (b c : Board) (m : Nat)
    (h : ∀ j : Fin 10, m ≤ j.val → b j = c j) : (rowsOf b).drop m = (rowsOf c).drop m := by
  apply List.ext_getElem
  · simp only [List.length_drop, rowsOf_length]
  · intro n h1 h2
    rw [List.getElem_drop, List.getElem_drop]
    unfold rowsOf
    rw [List.getElem_ofFn, List.getElem_ofFn]
    exact h _ (Nat.le_add_right m n)

theorem rowNotFull_iff (b : Board) (y : Fin 10) : rowNotFull (b y) = true ↔ ¬ isFull b y := by
  unfold rowNotFull isFull
  simp

theorem elimInv_init (b : Board) : ElimInv b 10 (b, 9) where
  w_eq := by rw [fullFrom_ten]; rfl
  w_le := le_refl _
  untouched := fun _ _ => rfl
  placed := fun j hj => by have := j.isLt; omega
  rows := by
    have e : ((9 : Int) + 1).toNat = 10 := rfl
    simp only [e]
    rw [List.drop_of_length_le (by rw [rowsOf_length]), List.filter_nil]

/-- One iteration of the loop of `eliminate_lines` keeps the invariant. -/
theorem elimInv_step (b : Board) (y : Nat) (hy : y < 10) (c : Board) (w : Int)
    (h : ElimInv b (y + 1) (c, w)) :
    ElimInv b y
      (if rowFull c y then (c, w)
       else ((if w ≠ y then copyRow c w y else c), w - 1)) := by
  obtain ⟨hw, hle, hun, hpl, hrows⟩ := h
  simp only at hw hle hun hpl hrows
  have hwy : (y : Int) ≤ w := by rw [hw]; push_cast; omega
  have hcy : c ⟨y, hy⟩ = b ⟨y, hy⟩ := hun ⟨y, hy⟩ hwy
  have hfull : rowFull c y = true ↔ isFull b ⟨y, hy⟩ := by
    have := rowFull_iff c ⟨y, hy⟩
    simp only at this
    rw [this]
    unfold isFull
    rw [hcy]
  by_cases hf : isFull b ⟨y, hy⟩
  · rw [if_pos (hfull.2 hf)]
    have hcnt := fullFrom_succ_of_full b ⟨y, hy⟩ hf
    simp only at hcnt
    refine ⟨?_, hle, hun, ?_, ?_⟩
    · simp only; rw [hw, hcnt]; push_cast; omega
    · intro j hj hnf
      have hne : j.val ≠ y := by
        intro hh
        have : j = ⟨y, hy⟩ := Fin.ext hh
        rw [this] at hnf
        exact hnf hf
      exact hpl j (by omega) hnf
    · simp only
      rw [hrows, rowsOf_drop_cons b ⟨y, hy⟩, List.filter_cons]
      have : rowNotFull (b ⟨y, hy⟩) = false := by
        rw [Bool.eq_false_iff, Ne, rowNotFull_iff]
        exact not_not_intro hf
      rw [this]
      simp
  · have hnf : ¬ rowFull c y = true := fun hh => hf (hfull.1 hh)
    rw [if_neg hnf]
    have hcnt := fullFrom_succ_of_not_full b ⟨y, hy⟩ hf
    simp only at hcnt
    have hw0 : 0 ≤ w := by omega
    have hwlt : w.toNat < 10 := by omega
    have hcopy : (if w ≠ y then copyRow c w y else c) = copyRow c w y := by
      by_cases hh : w = y
      · rw [if_neg (not_not_intro hh)]
        funext j
        have := copyRow_apply c w ⟨y, hy⟩ j
        simp only at this
        rw [this]
        split_ifs with h1
        · have : j = ⟨y, hy⟩ := Fin.ext (by simp only; omega)
          rw [this]
        · rfl
      · rw [if_pos hh]
    rw [hcopy]
    have happ : ∀ j : Fin 10, copyRow c w y j = if (j.val : Int) = w then b ⟨y, hy⟩ else c j := by
      intro j
      have := copyRow_apply c w ⟨y, hy⟩ j
      simp only at this
      rw [this, hcy]
    refine ⟨?_, ?_, ?_, ?_, ?_⟩
    · simp only; rw [hw, hcnt]; push_cast; omega
    · simp only; omega
    · intro j hj
      simp only at hj
      simp only
      rw [happ, if_neg (by omega)]
      exact hun j (by omega)
    · intro j hj hjnf
      by_cases hjy : j.val = y
      · have hj' : j = ⟨y, hy⟩ := Fin.ext hjy
        refine ⟨⟨w.toNat, hwlt⟩, ?_, ?_, ?_⟩
        · simp only
          rw [fullBelow_eq, hjy]
          have : ((w.toNat : Nat) : Int) = (y : Int) + (fullFrom b (y + 1) : Nat) := by
            rw [Int.toNat_of_nonneg hw0, hw]; push_cast; omega
          exact_mod_cast this
        · simp only
          rw [Int.toNat_of_nonneg hw0]; omega
        · simp only
          rw [happ, if_pos (by simp only; rw [Int.toNat_of_nonneg hw0]), hj']
      · obtain ⟨z, hz1, hz2, hz3⟩ := hpl j (by omega) hjnf
        refine ⟨z, hz1, ?_, ?_⟩
        · simp only; omega
        · simp only
          rw [happ, if_neg (by omega)]
          exact hz3
    · simp only
      have e1 : (w - 1 + 1).toNat = w.toNat := by rw [sub_add_cancel]
      rw [e1]
      have hd := rowsOf_drop_cons (copyRow c w y) ⟨w.toNat, hwlt⟩
      simp only at hd
      rw [hd, happ, if_pos (by simp only; rw [Int.toNat_of_nonneg hw0])]
      have e2 : w.toNat + 1 = (w + 1).toNat := by omega
      rw [e2, rowsOf_drop_congr (copyRow c w y) c (w + 1).toNat, hrows,
        rowsOf_drop_cons b ⟨y, hy⟩, List.filter_cons]
      · have : rowNotFull (b ⟨y, hy⟩) = true := (rowNotFull_iff b ⟨y, hy⟩).2 hf
        rw [this]
        simp
      · intro j hj
        rw [happ, if_neg (by omega)]

theorem elimInv_loop (b : Board) (y : Nat) (hy : y ≤ 10) (st : Board × Int)
    (h : ElimInv b y st) : ElimInv b 0 (eliminateLoop y st) := by
  induction y generalizing st with
  | zero => exact h
  | succ y ih =>
    obtain ⟨c, w⟩ := st
    have hs := elimInv_step b y (by omega) c w h
    unfold eliminateLoop
    by_cases hf : rowFull c y = true
    · rw [if_pos hf] at hs ⊢
      exact ih (by omega) _ hs
    · rw [if_neg hf] at hs ⊢
      exact ih (by omega) _ hs

/-- The invariant at loop exit, for the whole `eliminate_lines` run. -/
theorem elimInv_final (b : Board) :
    ElimInv b 0 (eliminateLoop 10 (b, 9)) :=
  elimInv_loop b 10 (le_refl _) _ (elimInv_init b)

/-- C4 (lock changes the board), evaluated on the code: the running state
`shaftState` is reached in play and passes the placement check, the move down fails it with
`OVERLAP_Y` and locks the piece, the completed bottom row is removed, the nine
rows above drop by one and the top row, which the row clear never rewrites,
keeps its contents: the board after the call equals the board before it. -/
theorem lock_leaves_board_equal (r : Nat) :
    Reachable shaftState ∧
    shaftState.current_state = State.RUNNING ∧
    check shaftState = Result.OK ∧
    check (move_candidate 1 0 shaftState) = Result.OVERLAP_Y ∧
    (write_tetromino shaftState).board ≠ shaftState.board ∧
    (move 1 0 r shaftState).board = shaftState.board := by
  refine ⟨shaftState_reachable, rfl, by decide, by decide, by decide!, ?_⟩
  rw [move_of_lock 1 0 r shaftState (by decide) (by decide), select_next_tetromino_board]
  decide!

/-- C5 (row clear equals the reference compaction), evaluated on the code:
`shaftFilled`, the board the row clear receives when the piece of `shaftState`
locks, has exactly one full row, row 9; after the row clear the rows above
have dropped by one, but row 0 is not Empty: it still holds its old contents,
which now also stand in row 1. -/
theorem row_clear_leaves_top_row :
    (write_tetromino shaftState).board = shaftFilled ∧
    fullCount shaftFilled = 1 ∧ isFull shaftFilled 9 ∧
    eliminateBoard shaftFilled 0 0 = Color.YELLOW ∧
    eliminateBoard shaftFilled 0 = shaftFilled 0 ∧
    eliminateBoard shaftFilled 1 = shaftFilled 0 := by
  decide!

/-- C6 (order-preserving compaction): after the row clear, every non-full
input row `y` stands, cell for cell, at output row `y + (number of full input
rows with index greater than y)`; and with `n` non-full input rows, the output
rows `10-n .. 9` are the non-full input rows in their original order. -/
theorem compaction_preserves_order (b : Board) :
    (∀ y : Fin 10, ¬ isFull b y →
      ∃ z : Fin 10, z.val = y.val + fullBelow b y ∧ eliminateBoard b z = b y) ∧
    (rowsOf (eliminateBoard b)).drop (10 - ((rowsOf b).filter rowNotFull).length)
      = (rowsOf b).filter rowNotFull := by
  have hinv := elimInv_final b
  have hrows := hinv.rows
  have hle := hinv.w_le
  have hw := hinv.w_eq
  rw [List.drop_zero] at hrows
  constructor
  · intro y hy
    obtain ⟨z, h1, _, h3⟩ := hinv.placed y (Nat.zero_le _) hy
    exact ⟨z, h1, h3⟩
  · have hlen := congrArg List.length hrows
    rw [List.length_drop, rowsOf_length] at hlen
    have e : 10 - ((rowsOf b).filter rowNotFull).length
        = ((eliminateLoop 10 (b, 9)).2 + 1).toNat := by
      rw [← hlen]
      omega
    rw [e]
    exact hrows

theorem compaction_preserves_order_witness :
    ¬ isFull clearBoard 8 ∧ fullBelow clearBoard 8 = 1 ∧
    eliminateBoard clearBoard 9 = clearBoard 8 := by
  refine ⟨by decide, by decide, ?_⟩
  obtain ⟨z, h1, h2⟩ := (compaction_preserves_order clearBoard).1 8 (by decide)
  have hz : z = 9 := by
    apply Fin.ext
    rw [h1]
    decide
  rw [← hz]
  exact h2

/-! ## The rotation -/

/-- The inner loop of `rotate` run for `m` columns of row `y`, read at one cell. -/
theorem foldl_rotateCell_apply (d : Bool) (n : Int) (old : Tetromino) (y m : Nat)
    (acc : Tetromino) (r k : Fin 4) :
    ((List.range m).foldl (fun a x => rotateCell d n old a y x) acc) r k =
      if r.val = y ∧ k.val < m then
        (if d then tetAt old (n - k.val - 1) y else tetAt old k.val (n - y - 1))
      else acc r k := by
  induction m with
  | zero => simp
  | succ m ih =>
    rw [List.range_succ, List.foldl_append, List.foldl_cons, List.foldl_nil]
    have key : ∀ a : Tetromino, rotateCell d n old a y m r k =
        if ((r.val : Nat) : Int) = (y : Int) ∧ ((k.val : Nat) : Int) = (m : Int) then
          (if d then tetAt old (n - m - 1) y else tetAt old m (n - y - 1))
        else a r k := fun _ => rfl
    rw [key, ih]
    by_cases h1 : ((r.val : Nat) : Int) = (y : Int) ∧ ((k.val : Nat) : Int) = (m : Int)
    · have hk : k.val = m := by omega
      have h2 : r.val = y ∧ k.val < m + 1 := ⟨by omega, by omega⟩
      rw [if_pos h1, if_pos h2, hk]
    · rw [if_neg h1]
      by_cases h2 : r.val = y ∧ k.val < m
      · have h3 : r.val = y ∧ k.val < m + 1 := ⟨h2.1, by omega⟩
        rw [if_pos h2, if_pos h3]
      · have h3 : ¬ (r.val = y ∧ k.val < m + 1) := by
          intro h3
          omega
        rw [if_neg h2, if_neg h3]

/-- The two loops of `rotate` run for `m` rows, read at one cell. -/
theorem foldl_rotateRow_apply (d : Bool) (n : Int) (old : Tetromino) (m : Nat)
    (acc : Tetromino) (r k : Fin 4) :
    ((List.range m).foldl (fun a y => rotateRow d n old a y) acc) r k =
      if r.val < m ∧ k.val < n.toNat then
        (if d then tetAt old (n - k.val - 1) r.val else tetAt old k.val (n - r.val - 1))
      else acc r k := by
  induction m with
  | zero => simp
  | succ m ih =>
    rw [List.range_succ, List.foldl_append, List.foldl_cons, List.foldl_nil]
    have key : ∀ a : Tetromino, rotateRow d n old a m r k =
        if r.val = m ∧ k.val < n.toNat then
          (if d then tetAt old (n - k.val - 1) m else tetAt old k.val (n - m - 1))
        else a r k := fun a => foldl_rotateCell_apply d n old m n.toNat a r k
    rw [key, ih]
    by_cases h1 : r.val = m ∧ k.val < n.toNat
    · have h2 : r.val < m + 1 ∧ k.val < n.toNat := ⟨by omega, h1.2⟩
      rw [if_pos h1, if_pos h2, h1.1]
    · rw [if_neg h1]
      by_cases h2 : r.val < m ∧ k.val < n.toNat
      · have h3 : r.val < m + 1 ∧ k.val < n.toNat := ⟨by omega, h2.2⟩
        rw [if_pos h2, if_pos h3]
      · have h3 : ¬ (r.val < m + 1 ∧ k.val < n.toNat) := by
          intro h3
          omega
        rw [if_neg h2, if_neg h3]

/-- The candidate grid of `rotate`, cell by cell: inside the `n × n` box the
rotated cell of the old grid, outside it the old cell. -/
theorem rotateLoop_apply (d : Bool) (n : Int) (old : Tetromino) (r k : Fin 4) :
    rotateLoop d n old r k =
      if (r.val : Int) < n ∧ (k.val : Int) < n then
        (if d then tetAt old (n - k.val - 1) r.val else tetAt old k.val (n - r.val - 1))
      else old r k := by
  unfold rotateLoop
  rw [foldl_rotateRow_apply]
  by_cases h : (r.val : Int) < n ∧ (k.val : Int) < n
  · have h2 : r.val < n.toNat ∧ k.val < n.toNat := ⟨by omega, by omega⟩
    rw [if_pos h, if_pos h2]
  · have h2 : ¬ (r.val < n.toNat ∧ k.val < n.toNat) := by
      intro h2
      omega
    rw [if_neg h, if_neg h2]

/-- C7 (accepted rotation follows the index formula): for a size `N` in
{2, 3, 4}, if the candidate passes the placement check then after `rotate` the
grid satisfies `new[y][x] = old[N-1-x][y]` (clockwise, `direction = true`) or
`new[y][x] = old[x][N-1-y]` (counter-clockwise) for all `y, x < N`, every cell
outside the `N × N` box keeps its old value, and the anchor, the size, the
board and the phase are unchanged. -/
theorem rotate_accepted (direction : Bool) (g : Game)
    (hN : g.current_tetromino_size = 2 ∨ g.current_tetromino_size = 3 ∨
      g.current_tetromino_size = 4)
    (hok : check (rotate_candidate direction g) = Result.OK) :
    (∀ y x : Fin 4,
      (y.val : Int) < g.current_tetromino_size → (x.val : Int) < g.current_tetromino_size →
      ∃ y1 x1 : Fin 4,
        (y1.val : Int) = g.current_tetromino_size - 1 - x.val ∧
        (x1.val : Int) = g.current_tetromino_size - 1 - y.val ∧
        (rotate direction g).current_tetromino y x =
          if direction then g.current_tetromino y1 y else g.current_tetromino x x1) ∧
    (∀ y x : Fin 4,
      ¬ ((y.val : Int) < g.current_tetromino_size ∧ (x.val : Int) < g.current_tetromino_size) →
      (rotate direction g).current_tetromino y x = g.current_tetromino y x) ∧
    (rotate direction g).current_y = g.current_y ∧
    (rotate direction g).current_x = g.current_x ∧
    (rotate direction g).current_tetromino_size = g.current_tetromino_size ∧
    (rotate direction g).board = g.board ∧
    (rotate direction g).current_state = g.current_state := by
  rw [rotate_of_ok direction g hok]
  refine ⟨?_, ?_, rfl, rfl, rfl, rfl, rfl⟩
  · intro y x hy hx
    have hy0 := y.isLt
    have hx0 := x.isLt
    have hle : g.current_tetromino_size ≤ 4 := by omega
    refine ⟨⟨(g.current_tetromino_size - 1 - x.val).toNat, by omega⟩,
      ⟨(g.current_tetromino_size - 1 - y.val).toNat, by omega⟩, ?_, ?_, ?_⟩
    · simp only; omega
    · simp only; omega
    · change rotateLoop direction g.current_tetromino_size g.current_tetromino y x = _
      rw [rotateLoop_apply, if_pos ⟨hy, hx⟩]
      have e1 : g.current_tetromino_size - x.val - 1
          = ((g.current_tetromino_size - 1 - x.val).toNat : Nat) := by omega
      have e2 : g.current_tetromino_size - y.val - 1
          = ((g.current_tetromino_size - 1 - y.val).toNat : Nat) := by omega
      rw [e1, e2]
      rw [tetAt_coe g.current_tetromino
            ⟨(g.current_tetromino_size - 1 - x.val).toNat, by omega⟩ y,
          tetAt_coe g.current_tetromino x
            ⟨(g.current_tetromino_size - 1 - y.val).toNat, by omega⟩]
  · intro y x h
    change rotateLoop direction g.current_tetromino_size g.current_tetromino y x = _
    rw [rotateLoop_apply, if_neg h]

theorem rotate_accepted_witness :
    (fresh 0).current_tetromino_size = 4 ∧
    check (rotate_candidate true (fresh 0)) = Result.OK ∧
    (rotate true (fresh 0)).board = (fresh 0).board :=
  ⟨by decide, by decide!,
   (rotate_accepted true (fresh 0) (Or.inr (Or.inr (by decide))) (by decide!)).2.2.2.2.2.1⟩

/-- C8 (rotation revert on collision): in either direction, if the rotated
candidate fails the placement check with any result other than `OK`, then
`rotate` leaves the whole state (grid, size, anchor, board and phase) equal to
its value before the call. -/
theorem rotate_reverts (direction : Bool) (g : Game)
    (h : check (rotate_candidate direction g) ≠ Result.OK) :
    rotate direction g = g :=
  rotate_of_not_ok direction g h

theorem rotate_reverts_witness :
    Reachable wallState ∧
    check wallState = Result.OK ∧
    check (rotate_candidate true wallState) = Result.OVERLAP_X ∧
    rotate true wallState = wallState :=
  ⟨wallState_reachable, by decide!, by decide!, rotate_reverts true wallState (by decide!)⟩

/-- The candidate grid of a rotation of the square piece is the square piece. -/
theorem rotateLoop_square (d : Bool) : rotateLoop d 2 (tetrominoes 3) = tetrominoes 3 := by
  cases d <;> decide!

/-- A rotation leaves a state with the square piece as it is, whether the
candidate is accepted or reverted. -/
theorem rotate_square (d : Bool) (g : Game) (ht : g.current_tetromino = tetrominoes 3)
    (hs : g.current_tetromino_size = 2) : rotate d g = g := by
  have hc : rotate_candidate d g = g := by
    have e : rotateLoop d g.current_tetromino_size g.current_tetromino
        = g.current_tetromino := by
      rw [hs, ht]
      exact rotateLoop_square d
    unfold rotate_candidate
    rw [e]
  by_cases h : check (rotate_candidate d g) = Result.OK
  · rw [rotate_of_ok d g h, hc]
  · exact rotate_of_not_ok d g h

/-- C9 (O-piece rotation reversibility): for every state whose active piece is
the catalogue square (index 3, size 2), at any anchor and over any board, a
clockwise rotation followed at once by a counter-clockwise rotation leaves the
piece grid and the anchor equal to their values before the first rotation. -/
theorem square_rotation_round_trip (g : Game) (ht : g.current_tetromino = tetrominoes 3)
    (hs : g.current_tetromino_size = 2) :
    (rotate false (rotate true g)).current_tetromino = g.current_tetromino ∧
    (rotate false (rotate true g)).current_y = g.current_y ∧
    (rotate false (rotate true g)).current_x = g.current_x := by
  rw [rotate_square true g ht hs, rotate_square false g ht hs]
  exact ⟨rfl, rfl, rfl⟩

theorem square_rotation_round_trip_witness :
    bumpState.current_tetromino = tetrominoes 3 ∧
    bumpState.current_tetromino_size = 2 ∧
    (rotate false (rotate true bumpState)).current_tetromino = bumpState.current_tetromino :=
  ⟨rfl, rfl, (square_rotation_round_trip bumpState rfl rfl).1⟩

/-! ## The catalogue -/

/-- C10 (catalogue covers the seven families), evaluated on the code: the
sizes are 4, 3, 3, 2, 3, 3, 3, but entry 6, which the source labels the Z
shape, has the same occupancy pattern as entry 4, the S shape: cells (0,1),
(0,2), (1,0), (1,1).  It is not the mirror image of entry 4, and the seven
patterns are not pairwise different. -/
theorem catalogue_entry_six_repeats_entry_four :
    (∀ y x : Fin 4, tetrominoes 6 y x = Color.NONE ↔ tetrominoes 4 y x = Color.NONE) ∧
    ¬ (∀ y x : Fin 4, x.val < 3 →
        (tetrominoes 6 y x = Color.NONE ↔
          tetrominoes 4 y ⟨2 - x.val, by omega⟩ = Color.NONE)) ∧
    (∀ i : Fin 7, tetromino_sizes i = [4, 3, 3, 2, 3, 3, 3].getD i.val 0) := by
  refine ⟨by decide, ?_, by decide⟩
  intro h
  exact absurd (h 0 0 (by decide)) (by decide)

/-- Every catalogue shape has a non-empty cell in the last row or the last
column of its box. -/
theorem catalogue_touches_box_edge (i : Fin 7) :
    ∃ y x : Fin 4, tetrominoes i y x ≠ Color.NONE ∧
      ((y.val : Int) = tetromino_sizes i - 1 ∨ (x.val : Int) = tetromino_sizes i - 1) := by
  revert i
  decide

/-- C11 (catalogue integrity): every shape `tetrominoes[i]` has exactly 4
non-empty cells, all of one colour, all inside the top-left `N × N` box with
`N = tetromino_sizes[i]`, and no smaller top-left square holds them all; the
square piece has its 4 cells in the 2 × 2 box. -/
theorem catalogue_integrity :
    (∀ i : Fin 7,
      cellCount (tetrominoes i) = 4 ∧
      OneColour (tetrominoes i) ∧
      InBox (tetrominoes i) (tetromino_sizes i) ∧
      (∀ m : Int, m < tetromino_sizes i → ¬ InBox (tetrominoes i) m)) ∧
    (cellCount (tetrominoes 3) = 4 ∧ InBox (tetrominoes 3) 2) := by
  refine ⟨fun i => ⟨?_, ?_, ?_, ?_⟩, by decide, by decide⟩
  · revert i; decide
  · revert i; decide
  · revert i; decide
  · intro m hm hbox
    obtain ⟨y, x, hne, h⟩ := catalogue_touches_box_edge i
    have := hbox y x hne
    omega

/-! ## The fresh game -/

theorem check_spawn_empty (i : Fin 7) :
    check { initial with
            current_y := 0
            current_x := 2
            current_tetromino := tetrominoes i
            current_tetromino_size := tetromino_sizes i } = Result.OK := by
  revert i
  decide

/-- C15 (fresh game starts running): for every value of `rand()`, hence for
every piece index, the spawned piece at anchor row 0, column 2 passes the
placement check on the all-Empty board, so the state after the first spawn is
running, with an empty board and the chosen catalogue piece. -/
theorem fresh_game_running (r : Nat) :
    (∀ i : Fin 7,
      check { initial with
              current_y := 0
              current_x := 2
              current_tetromino := tetrominoes i
              current_tetromino_size := tetromino_sizes i } = Result.OK) ∧
    check (spawn_candidate r initial) = Result.OK ∧
    (fresh r).current_state = State.RUNNING ∧
    (∀ (y : Fin 10) (x : Fin 8), (fresh r).board y x = Color.NONE) ∧
    (fresh r).current_tetromino = tetrominoes ⟨r % 7, Nat.mod_lt r (by decide)⟩ ∧
    (fresh r).current_tetromino_size = tetromino_sizes ⟨r % 7, Nat.mod_lt r (by decide)⟩ ∧
    (fresh r).current_y = 0 ∧ (fresh r).current_x = 2 := by
  have hc : check (spawn_candidate r initial) = Result.OK :=
    check_spawn_empty ⟨r % 7, Nat.mod_lt r (by decide)⟩
  have hf : fresh r = spawn_candidate r initial := by
    unfold fresh select_next_tetromino
    simp only
    rw [if_neg (not_not_intro hc)]
  refine ⟨check_spawn_empty, hc, ?_, ?_, ?_, ?_, ?_, ?_⟩ <;> rw [hf]
  · rfl
  · intro y x; rfl
  · rfl
  · rfl
  · rfl
  · rfl

/-! ## Exactness of the placement check -/

theorem between_iff (v lo hi : Int) : between v lo hi = true ↔ lo ≤ v ∧ v ≤ hi := by
  simp only [between, Bool.and_eq_true, decide_eq_true_eq]

/-- The instrumented scan returns the result of the scan of `check`. -/
theorem checkTraced_fst (g : Game) (l : List (Fin 4 × Fin 4)) :
    (checkTraced g l).1 = checkScan g l := by
  induction l with
  | nil => rfl
  | cons p rest ih =>
    unfold checkTraced checkScan checkCell
    by_cases h0 : g.current_tetromino p.1 p.2 = Color.NONE
    · simp only [h0, if_true]; exact ih
    · by_cases h1 : between (g.current_y + p.1.val) 0 (BOARD_HEIGHT - 1) = true
      · by_cases h2 : between (g.current_x + p.2.val) 0 (BOARD_WIDTH - 1) = true
        · by_cases h3 : boardAt g.board (g.current_y + p.1.val) (g.current_x + p.2.val)
              = Color.NONE
          · simp only [h0, h1, h2, h3, if_false, Bool.not_true, Bool.false_eq_true, ne_eq,
              not_true_eq_false]
            exact ih
          · simp only [h0, h1, h2, h3, if_false, Bool.not_true, Bool.false_eq_true, ne_eq,
              not_false_eq_true, if_true]
        · rw [Bool.not_eq_true] at h2
          simp only [h0, h1, h2, if_false, Bool.not_true, Bool.false_eq_true,
            Bool.not_false, if_true]
      · rw [Bool.not_eq_true] at h1
        simp only [h0, h1, if_false, Bool.not_false, if_true]

/-- Every board read of the instrumented scan is at an index inside the board. -/
theorem checkTraced_reads_in_range (g : Game) (l : List (Fin 4 × Fin 4)) :
    ∀ q ∈ (checkTraced g l).2, 0 ≤ q.1 ∧ q.1 < 10 ∧ 0 ≤ q.2 ∧ q.2 < 8 := by
  induction l with
  | nil => intro q hq; cases hq
  | cons p rest ih =>
    unfold checkTraced
    by_cases h0 : g.current_tetromino p.1 p.2 = Color.NONE
    · simp only [h0, if_true]; exact ih
    · by_cases h1 : between (g.current_y + p.1.val) 0 (BOARD_HEIGHT - 1) = true
      · by_cases h2 : between (g.current_x + p.2.val) 0 (BOARD_WIDTH - 1) = true
        · have r1 := (between_iff _ _ _).1 h1
          have r2 := (between_iff _ _ _).1 h2
          simp only [BOARD_HEIGHT, BOARD_WIDTH] at r1 r2
          have hin : 0 ≤ g.current_y + p.1.val ∧ g.current_y + p.1.val < 10 ∧
              0 ≤ g.current_x + p.2.val ∧ g.current_x + p.2.val < 8 := by omega
          by_cases h3 : boardAt g.board (g.current_y + p.1.val) (g.current_x + p.2.val)
              = Color.NONE
          · simp only [h0, h1, h2, h3, if_false, Bool.not_true, Bool.false_eq_true, ne_eq,
              not_true_eq_false]
            intro q hq
            rcases List.mem_cons.1 hq with rfl | hq
            · exact hin
            · exact ih q hq
          · simp only [h0, h1, h2, h3, if_false, Bool.not_true, Bool.false_eq_true, ne_eq,
              not_false_eq_true, if_true]
            intro q hq
            rcases List.mem_cons.1 hq with rfl | hq
            · exact hin
            · cases hq
        · rw [Bool.not_eq_true] at h2
          simp only [h0, h1, h2, if_false, Bool.not_true, Bool.false_eq_true,
            Bool.not_false, if_true]
          intro q hq; cases hq
      · rw [Bool.not_eq_true] at h1
        simp only [h0, h1, if_false, Bool.not_false, if_true]
        intro q hq; cases hq

/-- C12 (placement check is exact): for every board, piece grid and anchor,
negative or too large anchors included, `check` returns `OK` if and only if
every non-empty cell `(dy, dx)` of the 4 × 4 grid has its row in 0..9, its
column in 0..7 and an Empty board cell under it; and every board read that
`check` performs is at an index inside the board. -/
theorem placement_check_exact (g : Game) :
    (check g = Result.OK ↔
      ∀ dy dx : Fin 4, g.current_tetromino dy dx ≠ Color.NONE →
        0 ≤ g.current_y + dy.val ∧ g.current_y + dy.val ≤ 9 ∧
        0 ≤ g.current_x + dx.val ∧ g.current_x + dx.val ≤ 7 ∧
        boardAt g.board (g.current_y + dy.val) (g.current_x + dx.val) = Color.NONE) ∧
    (checkTraced g cells).1 = check g ∧
    (∀ q ∈ (checkTraced g cells).2, 0 ≤ q.1 ∧ q.1 ≤ 9 ∧ 0 ≤ q.2 ∧ q.2 ≤ 7) := by
  refine ⟨?_, checkTraced_fst g cells, ?_⟩
  · rw [check_eq_OK_iff]
    unfold NoOverlap
    constructor
    · intro h dy dx hne
      have := h dy dx hne
      exact ⟨this.1, by omega, this.2.2.1, by omega, this.2.2.2.2⟩
    · intro h dy dx hne
      have := h dy dx hne
      exact ⟨this.1, by omega, this.2.2.1, by omega, this.2.2.2.2⟩
  · intro q hq
    have := checkTraced_reads_in_range g cells q hq
    omega

/-! ## The failure code of the placement check -/

/-- A failing scan splits at its first failing cell. -/
theorem checkScan_split (g : Game) (l : List (Fin 4 × Fin 4)) (h : checkScan g l ≠ Result.OK) :
    ∃ pre p post, l = pre ++ p :: post ∧
      (∀ q ∈ pre, checkCell g q.1 q.2 = Result.OK) ∧
      checkCell g p.1 p.2 = checkScan g l := by
  induction l with
  | nil => exact absurd rfl h
  | cons a rest ih =>
    by_cases ha : checkCell g a.1 a.2 = Result.OK
    · have e : checkScan g (a :: rest) = checkScan g rest := by
        simp only [checkScan, ha]
      rw [e] at h ⊢
      obtain ⟨pre, p, post, h1, h2, h3⟩ := ih h
      refine ⟨a :: pre, p, post, by rw [h1]; rfl, ?_, h3⟩
      intro q hq
      rcases List.mem_cons.1 hq with rfl | hq
      · exact ha
      · exact h2 q hq
    · have e : checkScan g (a :: rest) = checkCell g a.1 a.2 := by
        cases hc : checkCell g a.1 a.2 <;> simp_all [checkScan]
      exact ⟨[], a, rest, rfl, fun q hq => absurd hq (List.not_mem_nil q), e.symm⟩

/-- The scan stops at the first failing cell, whatever follows it. -/
theorem checkScan_append_fail (g : Game) (pre : List (Fin 4 × Fin 4)) (p : Fin 4 × Fin 4)
    (post : List (Fin 4 × Fin 4)) (hpre : ∀ q ∈ pre, checkCell g q.1 q.2 = Result.OK)
    (hp : checkCell g p.1 p.2 ≠ Result.OK) :
    checkScan g (pre ++ p :: post) = checkCell g p.1 p.2 := by
  induction pre with
  | nil =>
    rw [List.nil_append]
    cases hc : checkCell g p.1 p.2 <;> simp_all [checkScan]
  | cons a pre ih =>
    have ha := hpre a (List.mem_cons_self _ _)
    rw [List.cons_append]
    simp only [checkScan, ha]
    exact ih (fun q hq => hpre q (List.mem_cons_of_mem _ hq))

/-- The code of a failing cell: the cell is non-empty and the three tests are
taken in the order row, column, board. -/
theorem checkCell_fail (g : Game) (y x : Fin 4) (h : checkCell g y x ≠ Result.OK) :
    g.current_tetromino y x ≠ Color.NONE ∧
    checkCell g y x =
      if ¬ (0 ≤ g.current_y + y.val ∧ g.current_y + y.val ≤ 9) then Result.OVERLAP_Y
      else if ¬ (0 ≤ g.current_x + x.val ∧ g.current_x + x.val ≤ 7) then Result.OVERLAP_X
      else Result.COLLIDED := by
  rw [checkCell_eq] at h ⊢
  by_cases h0 : g.current_tetromino y x = Color.NONE
  · rw [if_pos h0] at h; exact absurd rfl h
  · refine ⟨h0, ?_⟩
    rw [if_neg h0] at h ⊢
    by_cases h1 : 0 ≤ g.current_y + y.val ∧ g.current_y + y.val < 10
    · have h1b : 0 ≤ g.current_y + y.val ∧ g.current_y + y.val ≤ 9 := ⟨h1.1, by omega⟩
      rw [if_neg (not_not_intro h1)] at h ⊢
      rw [if_neg (not_not_intro h1b)]
      by_cases h2 : 0 ≤ g.current_x + x.val ∧ g.current_x + x.val < 8
      · have h2b : 0 ≤ g.current_x + x.val ∧ g.current_x + x.val ≤ 7 := ⟨h2.1, by omega⟩
        rw [if_neg (not_not_intro h2)] at h ⊢
        rw [if_neg (not_not_intro h2b)]
        by_cases h3 : boardAt g.board (g.current_y + y.val) (g.current_x + x.val) ≠ Color.NONE
        · rw [if_pos h3]
        · rw [if_neg h3] at h; exact absurd rfl h
      · have h2b : ¬ (0 ≤ g.current_x + x.val ∧ g.current_x + x.val ≤ 7) := by
          intro hh; exact h2 ⟨hh.1, by omega⟩
        rw [if_pos h2, if_pos h2b]
    · have h1b : ¬ (0 ≤ g.current_y + y.val ∧ g.current_y + y.val ≤ 9) := by
        intro hh; exact h1 ⟨hh.1, by omega⟩
      rw [if_pos h1, if_pos h1b]

/-- C17 (failure code of the placement check): whenever `check` is not `OK`,
the cells in row-major order split at a first failing cell `p`: every cell
before it is empty or passes the three tests, `p` is non-empty and fails one,
and the result is `OVERLAP_Y` if the row of `p` is outside 0..9, otherwise
`OVERLAP_X` if its column is outside 0..7, otherwise `COLLIDED` with a
non-empty board cell under `p`; the cells after `p` do not influence the code:
the scan returns it whatever list follows `p`. -/
theorem check_failure_code (g : Game) (h : check g ≠ Result.OK) :
    ∃ (pre : List (Fin 4 × Fin 4)) (p : Fin 4 × Fin 4) (post : List (Fin 4 × Fin 4)),
      cells = pre ++ p :: post ∧
      (∀ q ∈ pre, g.current_tetromino q.1 q.2 ≠ Color.NONE →
        0 ≤ g.current_y + q.1.val ∧ g.current_y + q.1.val ≤ 9 ∧
        0 ≤ g.current_x + q.2.val ∧ g.current_x + q.2.val ≤ 7 ∧
        boardAt g.board (g.current_y + q.1.val) (g.current_x + q.2.val) = Color.NONE) ∧
      g.current_tetromino p.1 p.2 ≠ Color.NONE ∧
      check g =
        (if ¬ (0 ≤ g.current_y + p.1.val ∧ g.current_y + p.1.val ≤ 9) then Result.OVERLAP_Y
         else if ¬ (0 ≤ g.current_x + p.2.val ∧ g.current_x + p.2.val ≤ 7) then
           Result.OVERLAP_X
         else Result.COLLIDED) ∧
      (check g = Result.COLLIDED →
        boardAt g.board (g.current_y + p.1.val) (g.current_x + p.2.val) ≠ Color.NONE) ∧
      (∀ post1 : List (Fin 4 × Fin 4), checkScan g (pre ++ p :: post1) = check g) := by
  obtain ⟨pre, p, post, h1, h2, h3⟩ := checkScan_split g cells h
  change checkCell g p.1 p.2 = check g at h3
  have hp : checkCell g p.1 p.2 ≠ Result.OK := by rw [h3]; exact h
  obtain ⟨hne, hcode⟩ := checkCell_fail g p.1 p.2 hp
  refine ⟨pre, p, post, h1, ?_, hne, ?_, ?_, ?_⟩
  · intro q hq hq0
    have := (checkCell_eq_OK_iff g q.1 q.2).1 (h2 q hq) hq0
    exact ⟨this.1, by omega, this.2.2.1, by omega, this.2.2.2.2⟩
  · rw [← h3]; exact hcode
  · intro hcol hb
    have hok := (checkCell_eq_OK_iff g p.1 p.2).2
    rw [← h3, hcode] at hcol
    by_cases r1 : 0 ≤ g.current_y + p.1.val ∧ g.current_y + p.1.val ≤ 9
    · by_cases r2 : 0 ≤ g.current_x + p.2.val ∧ g.current_x + p.2.val ≤ 7
      · apply hp
        apply hok
        intro _
        exact ⟨r1.1, by omega, r2.1, by omega, hb⟩
      · rw [if_neg (not_not_intro r1), if_pos r2] at hcol; cases hcol
    · rw [if_pos r1] at hcol; cases hcol
  · intro post1
    rw [checkScan_append_fail g pre p post1 h2 hp, h3]

theorem check_failure_code_witness :
    check (move_candidate 0 (-1) bumpState) ≠ Result.OK ∧
    ∃ (pre : List (Fin 4 × Fin 4)) (p : Fin 4 × Fin 4) (post : List (Fin 4 × Fin 4)),
      cells = pre ++ p :: post ∧
      (move_candidate 0 (-1) bumpState).current_tetromino p.1 p.2 ≠ Color.NONE := by
  refine ⟨by decide, ?_⟩
  obtain ⟨pre, p, post, h1, _, h3, _⟩ :=
    check_failure_code (move_candidate 0 (-1) bumpState) (by decide)
  exact ⟨pre, p, post, h1, h3⟩

/-! ## The driver: game over, spawn and commit -/

theorem handle_of_lost (e : Event) (g : Game) (h : g.current_state = State.LOSED) :
    handle e g = g := by
  cases e <;> simp [handle, h]

theorem handleAll_of_lost (es : List Event) (g : Game) (h : g.current_state = State.LOSED) :
    handleAll es g = g := by
  unfold handleAll
  induction es with
  | nil => rfl
  | cons e es ih => rw [List.foldl_cons, handle_of_lost e g h]; exact ih

theorem driverReachable_handleAll (es : List Event) (g : Game) (h : DriverReachable g) :
    DriverReachable (handleAll es g) := by
  unfold handleAll
  induction es generalizing g with
  | nil => exact h
  | cons e es ih =>
    rw [List.foldl_cons]
    exact ih _ (DriverReachable.step e h)

theorem lostState_eq : handleAll lostEvents (fresh 3) = lostState := by
  have h : (handleAll lostEvents (fresh 3)).current_state = lostState.current_state ∧
      (handleAll lostEvents (fresh 3)).current_y = lostState.current_y ∧
      (handleAll lostEvents (fresh 3)).current_x = lostState.current_x ∧
      (handleAll lostEvents (fresh 3)).current_tetromino = lostState.current_tetromino ∧
      (handleAll lostEvents (fresh 3)).current_tetromino_size
        = lostState.current_tetromino_size ∧
      (handleAll lostEvents (fresh 3)).board = lostState.board := by
    decide!
  exact game_ext h.1 h.2.1 h.2.2.1 h.2.2.2.1 h.2.2.2.2.1 h.2.2.2.2.2

theorem lostState_driverReachable : DriverReachable lostState := by
  rw [← lostState_eq]
  exact driverReachable_handleAll _ _ (DriverReachable.fresh 3)

/-- C13 (game over is absorbing): in a state with phase Over, the handling of
any driver event (rotation key with or without shift, left, right, down,
gravity tick) returns the state unchanged, board, piece grid, size, anchor and
phase alike; so does the handling of any sequence of events. -/
theorem game_over_absorbing (g : Game) (h : g.current_state = State.LOSED) :
    (∀ e : Event, handle e g = g) ∧
    (∀ es : List Event, handleAll es g = g ∧
      (handleAll es g).board = g.board ∧
      (handleAll es g).current_state = State.LOSED) := by
  refine ⟨fun e => handle_of_lost e g h, fun es => ?_⟩
  rw [handleAll_of_lost es g h]
  exact ⟨rfl, rfl, h⟩

theorem game_over_absorbing_witness :
    DriverReachable lostState ∧
    lostState.current_state = State.LOSED ∧
    handle (Event.key_left 5) lostState = lostState :=
  ⟨lostState_driverReachable, rfl, (game_over_absorbing lostState rfl).1 (Event.key_left 5)⟩

theorem rotate_current_state (d : Bool) (g : Game) :
    (rotate d g).current_state = g.current_state := by
  unfold rotate
  simp only
  split_ifs <;> rfl

theorem select_next_tetromino_state (r : Nat) (g : Game) :
    (check (spawn_candidate r g) ≠ Result.OK →
      (select_next_tetromino r g).current_state = State.LOSED) ∧
    (check (spawn_candidate r g) = Result.OK →
      (select_next_tetromino r g).current_state = g.current_state) := by
  unfold select_next_tetromino
  simp only
  constructor
  · intro h; rw [if_pos h]
  · intro h; rw [if_neg (not_not_intro h)]; rfl

/-- C14 (spawn postcondition): `select_next_tetromino` sets the anchor to row
0, column 2, the piece grid to `tetrominoes[i]` and the size to
`tetromino_sizes[i]` for `i = rand() % 7`, leaves the board unchanged, and
sets the phase to Over exactly when the check of the new piece is not `OK`,
keeping the old phase otherwise.  No other operation writes the phase:
`rotate`, `write_tetromino` and `eliminate_lines` keep it, and from a running
state a `move` ends in Over if and only if it locked the piece (the check of
the shifted piece is neither `OK` nor `OVERLAP_X`) and the piece spawned after
the commit and the row clear fails the check. -/
theorem spawn_postcondition (r : Nat) (g : Game) :
    (select_next_tetromino r g).current_y = 0 ∧
    (select_next_tetromino r g).current_x = 2 ∧
    (select_next_tetromino r g).current_tetromino
      = tetrominoes ⟨r % 7, Nat.mod_lt r (by decide)⟩ ∧
    (select_next_tetromino r g).current_tetromino_size
      = tetromino_sizes ⟨r % 7, Nat.mod_lt r (by decide)⟩ ∧
    (select_next_tetromino r g).board = g.board ∧
    check (select_next_tetromino r g) = check (spawn_candidate r g) ∧
    (check (select_next_tetromino r g) ≠ Result.OK →
      (select_next_tetromino r g).current_state = State.LOSED) ∧
    (check (select_next_tetromino r g) = Result.OK →
      (select_next_tetromino r g).current_state = g.current_state) ∧
    (∀ d : Bool, (rotate d g).current_state = g.current_state) ∧
    (write_tetromino g).current_state = g.current_state ∧
    (eliminate_lines g).current_state = g.current_state ∧
    (g.current_state = State.RUNNING →
      ∀ dy dx : Int,
        ((move dy dx r g).current_state = State.LOSED ↔
          (check (move_candidate dy dx g) ≠ Result.OK ∧
           check (move_candidate dy dx g) ≠ Result.OVERLAP_X ∧
           check (select_next_tetromino r (eliminate_lines (write_tetromino g)))
             ≠ Result.OK))) := by
  have hp := select_next_tetromino_piece r g
  have hcheck : ∀ h : Game, check (select_next_tetromino r h) = check (spawn_candidate r h) := by
    intro h
    have hq := select_next_tetromino_piece r h
    exact check_congr hq.1 hq.2.2.1 hq.2.2.2 (select_next_tetromino_board r h)
  have hs := select_next_tetromino_state r g
  refine ⟨hp.2.2.1, hp.2.2.2, hp.1, hp.2.1, select_next_tetromino_board r g, hcheck g,
    ?_, ?_, fun d => rotate_current_state d g, rfl, rfl, ?_⟩
  · rw [hcheck g]; exact hs.1
  · rw [hcheck g]; exact hs.2
  · intro hrun dy dx
    by_cases hc : check (move_candidate dy dx g) = Result.OK
    · rw [move_of_ok dy dx r g hc]
      constructor
      · intro h
        have : g.current_state = State.LOSED := h
        rw [hrun] at this
        cases this
      · intro h; exact absurd hc h.1
    · by_cases hx : check (move_candidate dy dx g) = Result.OVERLAP_X
      · rw [move_of_overlap_x dy dx r g hx]
        constructor
        · intro h; rw [hrun] at h; cases h
        · intro h; exact absurd hx h.2.1
      · rw [move_of_lock dy dx r g hc hx, hcheck]
        have hs2 := select_next_tetromino_state r (eliminate_lines (write_tetromino g))
        constructor
        · intro h
          refine ⟨hc, hx, ?_⟩
          intro hok
          have := hs2.2 hok
          rw [h] at this
          have e : (eliminate_lines (write_tetromino g)).current_state = g.current_state := rfl
          rw [e, hrun] at this
          cases this
        · intro h; exact hs2.1 h.2.2

theorem spawn_postcondition_witness :
    bumpState.current_state = State.RUNNING ∧
    ((move 1 0 0 bumpState).current_state = State.LOSED ↔
      (check (move_candidate 1 0 bumpState) ≠ Result.OK ∧
       check (move_candidate 1 0 bumpState) ≠ Result.OVERLAP_X ∧
       check (select_next_tetromino 0 (eliminate_lines (write_tetromino bumpState)))
         ≠ Result.OK)) :=
  ⟨rfl, (spawn_postcondition 0 bumpState).2.2.2.2.2.2.2.2.2.2.2 rfl 1 0⟩

/-! ## The commit precondition -/

theorem reachable_of_driverReachable {g : Game} (h : DriverReachable g) : Reachable g := by
  induction h with
  | fresh r => exact Reachable.fresh r
  | step e _ ih =>
    cases e with
    | key_r shift =>
      simp only [handle]; split_ifs
      · exact Reachable.rotate shift ih
      · exact ih
    | key_left r =>
      simp only [handle]; split_ifs
      · exact Reachable.left r ih
      · exact ih
    | key_right r =>
      simp only [handle]; split_ifs
      · exact Reachable.right r ih
      · exact ih
    | key_down r =>
      simp only [handle]; split_ifs
      · exact Reachable.down r ih
      · exact ih
    | tick r =>
      simp only [handle]; split_ifs
      · exact Reachable.down r ih
      · exact ih

/-- The state handed to `write_tetromino` is the state before the move. -/
theorem move_commit_eq_some (dy dx : Int) (g g2 : Game) (h : move_commit dy dx g = some g2) :
    g2 = g ∧ check (move_candidate dy dx g) ≠ Result.OK ∧
    check (move_candidate dy dx g) ≠ Result.OVERLAP_X := by
  unfold move_commit at h
  simp only at h
  by_cases hc : check (move_candidate dy dx g) = Result.OK
  · rw [if_pos hc] at h; cases h
  · rw [if_neg hc] at h
    by_cases hx : check (move_candidate dy dx g) = Result.OVERLAP_X
    · rw [if_pos hx] at h; cases h
    · rw [if_neg hx, move_undo] at h
      exact ⟨(Option.some.inj h).symm, hc, hx⟩

/-- `move_commit` says when, and on which state, `move` commits the piece. -/
theorem move_eq_of_commit (dy dx : Int) (r : Nat) (g : Game) :
    (∀ g2, move_commit dy dx g = some g2 →
      move dy dx r g = select_next_tetromino r (eliminate_lines (write_tetromino g2))) ∧
    (move_commit dy dx g = none →
      move dy dx r g = move_candidate dy dx g ∨ move dy dx r g = g) := by
  constructor
  · intro g2 h
    obtain ⟨e, hc, hx⟩ := move_commit_eq_some dy dx g g2 h
    rw [e, move_of_lock dy dx r g hc hx]
  · intro h
    by_cases hc : check (move_candidate dy dx g) = Result.OK
    · exact Or.inl (move_of_ok dy dx r g hc)
    · by_cases hx : check (move_candidate dy dx g) = Result.OVERLAP_X
      · exact Or.inr (move_of_overlap_x dy dx r g hx)
      · unfold move_commit at h
        simp only at h
        rw [if_neg hc, if_neg hx] at h
        cases h

theorem handle_commit_eq_some (e : Event) (g g2 : Game) (h : handle_commit e g = some g2) :
    g2 = g ∧ g.current_state = State.RUNNING := by
  cases e with
  | key_r shift => cases h
  | key_left r =>
    simp only [handle_commit] at h
    by_cases hr : g.current_state = State.RUNNING
    · rw [if_pos hr] at h; exact ⟨(move_commit_eq_some _ _ _ _ h).1, hr⟩
    · rw [if_neg hr] at h; cases h
  | key_right r =>
    simp only [handle_commit] at h
    by_cases hr : g.current_state = State.RUNNING
    · rw [if_pos hr] at h; exact ⟨(move_commit_eq_some _ _ _ _ h).1, hr⟩
    · rw [if_neg hr] at h; cases h
  | key_down r =>
    simp only [handle_commit] at h
    by_cases hr : g.current_state = State.RUNNING
    · rw [if_pos hr] at h; exact ⟨(move_commit_eq_some _ _ _ _ h).1, hr⟩
    · rw [if_neg hr] at h; cases h
  | tick r =>
    simp only [handle_commit] at h
    by_cases hr : g.current_state = State.RUNNING
    · rw [if_pos hr] at h; exact ⟨(move_commit_eq_some _ _ _ _ h).1, hr⟩
    · rw [if_neg hr] at h; cases h

/-- A commit on a state that passes the check keeps every locked block. -/
theorem write_tetromino_keeps_blocks (g : Game) (hg : check g = Result.OK)
    (y : Fin 10) (x : Fin 8) (hb : g.board y x ≠ Color.NONE) :
    (write_tetromino g).board y x = g.board y x := by
  rw [write_tetromino_board]
  by_cases ht : tetAt g.current_tetromino (y.val - g.current_y) (x.val - g.current_x)
      ≠ Color.NONE
  · exfalso
    obtain ⟨p, h1, h2, h3⟩ := tetAt_ne_NONE ht
    have hne : g.current_tetromino p.1 p.2 ≠ Color.NONE := by rw [h3]; exact ht
    have hinv := (check_eq_OK_iff g).1 hg p.1 p.2 hne
    have e1 : g.current_y + p.1.val = y.val := by omega
    have e2 : g.current_x + p.2.val = x.val := by omega
    rw [e1, e2, boardAt_coe] at hinv
    exact hb hinv.2.2.2.2
  · rw [if_neg ht]

/-- C16 (commit precondition always holds): in every run of the program from
a fresh game, whenever the handling of an event calls `write_tetromino`, the
state at that moment passes the placement check; hence every non-empty piece
cell is written at an index inside the board, onto a cell that was Empty, and
every board cell that held a block keeps it. -/
theorem commit_precondition (g : Game) (e : Event) (g2 : Game) (hr : DriverReachable g)
    (hc : handle_commit e g = some g2) :
    check g2 = Result.OK ∧
    (∀ dy dx : Fin 4, g2.current_tetromino dy dx ≠ Color.NONE →
      0 ≤ g2.current_y + dy.val ∧ g2.current_y + dy.val < 10 ∧
      0 ≤ g2.current_x + dx.val ∧ g2.current_x + dx.val < 8 ∧
      boardAt g2.board (g2.current_y + dy.val) (g2.current_x + dx.val) = Color.NONE) ∧
    (∀ (y : Fin 10) (x : Fin 8), g2.board y x ≠ Color.NONE →
      (write_tetromino g2).board y x = g2.board y x) := by
  obtain ⟨e2, hrun⟩ := handle_commit_eq_some e g g2 hc
  have hok : check g2 = Result.OK := by
    rw [e2]
    exact reachable_check (reachable_of_driverReachable hr) hrun
  exact ⟨hok, (check_eq_OK_iff g2).1 hok, write_tetromino_keeps_blocks g2 hok⟩

theorem bumpState_driver_eq : handleAll bumpEvents (fresh 3) = bumpState := by
  have h : (handleAll bumpEvents (fresh 3)).current_state = bumpState.current_state ∧
      (handleAll bumpEvents (fresh 3)).current_y = bumpState.current_y ∧
      (handleAll bumpEvents (fresh 3)).current_x = bumpState.current_x ∧
      (handleAll bumpEvents (fresh 3)).current_tetromino = bumpState.current_tetromino ∧
      (handleAll bumpEvents (fresh 3)).current_tetromino_size
        = bumpState.current_tetromino_size ∧
      (handleAll bumpEvents (fresh 3)).board = bumpState.board := by
    decide!
  exact game_ext h.1 h.2.1 h.2.2.1 h.2.2.2.1 h.2.2.2.2.1 h.2.2.2.2.2

theorem bumpState_driverReachable : DriverReachable bumpState := by
  rw [← bumpState_driver_eq]
  exact driverReachable_handleAll _ _ (DriverReachable.fresh 3)

theorem commit_precondition_witness :
    DriverReachable bumpState ∧
    handle_commit (Event.key_left 0) bumpState = some bumpState ∧
    check bumpState = Result.OK :=
  ⟨bumpState_driverReachable, rfl,
   (commit_precondition bumpState (Event.key_left 0) bumpState
      bumpState_driverReachable rfl).1⟩

/-! ## The rotation round trip -/

/-- For a size of at most 4, the candidate grid of the opposite rotation of a
candidate grid is the grid the first rotation started from. -/
theorem rotateLoop_inverse (d : Bool) (n : Int) (hn : n ≤ 4) (t : Tetromino) :
    rotateLoop (!d) n (rotateLoop d n t) = t := by
  funext y x
  have hy := y.isLt
  have hx := x.isLt
  rw [rotateLoop_apply]
  by_cases hbox : (y.val : Int) < n ∧ (x.val : Int) < n
  · rw [if_pos hbox]
    cases d with
    | true =>
      simp only [Bool.not_true, Bool.false_eq_true, if_false]
      have e : n - (y.val : Int) - 1 = ((⟨(n - y.val - 1).toNat, by omega⟩ : Fin 4).val : Nat) := by
        simp only; omega
      rw [e, tetAt_coe, rotateLoop_apply]
      have hb2 : ((x.val : Nat) : Int) < n ∧
          (((⟨(n - y.val - 1).toNat, by omega⟩ : Fin 4).val : Nat) : Int) < n := by
        constructor
        · exact hbox.2
        · simp only; omega
      rw [if_pos hb2]
      simp only [if_true]
      have e2 : n - (((⟨(n - y.val - 1).toNat, by omega⟩ : Fin 4).val : Nat) : Int) - 1
          = (y.val : Int) := by
        simp only; omega
      rw [e2, tetAt_coe]
    | false =>
      simp only [Bool.not_false, if_true]
      have e : n - (x.val : Int) - 1 = ((⟨(n - x.val - 1).toNat, by omega⟩ : Fin 4).val : Nat) := by
        simp only; omega
      rw [e, tetAt_coe, rotateLoop_apply]
      have hb2 : (((⟨(n - x.val - 1).toNat, by omega⟩ : Fin 4).val : Nat) : Int) < n ∧
          ((y.val : Nat) : Int) < n := by
        constructor
        · simp only; omega
        · exact hbox.1
      rw [if_pos hb2]
      simp only [Bool.false_eq_true, if_false]
      have e2 : n - (((⟨(n - x.val - 1).toNat, by omega⟩ : Fin 4).val : Nat) : Int) - 1
          = (x.val : Int) := by
        simp only; omega
      rw [e2, tetAt_coe]
  · rw [if_neg hbox, rotateLoop_apply, if_neg hbox]

/-- C18 (general rotation round trip): from a state that passes the placement
check, with size 2, 3 or 4, if a rotation in direction `d` is accepted, then
the rotation in the opposite direction that follows at once is accepted too
and gives back the state before the first rotation: the piece grid is the old
one, and the anchor, the size and the board are unchanged after each of the
two rotations.  `d` ranges over both directions. -/
theorem rotation_round_trip (d : Bool) (g : Game) (hg : check g = Result.OK)
    (hN : g.current_tetromino_size = 2 ∨ g.current_tetromino_size = 3 ∨
      g.current_tetromino_size = 4)
    (hacc : check (rotate_candidate d g) = Result.OK) :
    check (rotate_candidate (!d) (rotate d g)) = Result.OK ∧
    (rotate (!d) (rotate d g)).current_tetromino = g.current_tetromino ∧
    rotate (!d) (rotate d g) = g ∧
    (rotate d g).current_y = g.current_y ∧ (rotate d g).current_x = g.current_x ∧
    (rotate d g).current_tetromino_size = g.current_tetromino_size ∧
    (rotate d g).board = g.board := by
  have hle : g.current_tetromino_size ≤ 4 := by omega
  have hback : rotate_candidate (!d) (rotate_candidate d g) = g := by
    unfold rotate_candidate
    simp only
    rw [rotateLoop_inverse d _ hle]
  rw [rotate_of_ok d g hacc]
  have hok2 : check (rotate_candidate (!d) (rotate_candidate d g)) = Result.OK := by
    rw [hback]; exact hg
  rw [rotate_of_ok (!d) _ hok2, hback]
  exact ⟨hg, rfl, rfl, rfl, rfl, rfl, rfl⟩

theorem rotation_round_trip_witness :
    check (fresh 5) = Result.OK ∧
    (fresh 5).current_tetromino_size = 3 ∧
    check (rotate_candidate true (fresh 5)) = Result.OK ∧
    rotate false (rotate true (fresh 5)) = fresh 5 :=
  ⟨by decide, by decide, by decide!,
   (rotation_round_trip true (fresh 5) (by decide) (Or.inr (Or.inl (by decide)))
      (by decide!)).2.2.1⟩

/-! ## The rows the row clear leaves alone -/

/-- At loop exit `write_y + 1` is the number of full rows. -/
theorem eliminateLoop_write_y (b : Board) :
    ((eliminateLoop 10 (b, 9)).2 + 1).toNat = fullCount b := by
  have hw := (elimInv_final b).w_eq
  rw [fullFrom_zero] at hw
  rw [hw]
  simp

theorem fullBelow_le_fullCount (b : Board) (y : Fin 10) : fullBelow b y ≤ fullCount b := by
  unfold fullBelow fullCount
  apply Finset.card_le_card
  intro j hj
  simp only [Finset.mem_filter, Finset.mem_univ, true_and] at hj ⊢
  exact hj.2

theorem not_isFull_of_fullCount_zero (b : Board) (h : fullCount b = 0) (y : Fin 10) :
    ¬ isFull b y := by
  unfold fullCount at h
  rw [Finset.card_eq_zero, Finset.filter_eq_empty_iff] at h
  exact h (Finset.mem_univ y)

/-- C19 (top rows are never written by the row clear): with `k` full rows in
the input, the rows 0..k-1 of the output are cell for cell the rows 0..k-1 of
the input; so if those input rows are all Empty the output is the reference
compaction (`k` Empty rows, then the non-full rows in order), and a board
without a full row is returned unchanged. -/
theorem top_rows_untouched (b : Board) :
    (∀ j : Fin 10, j.val < fullCount b → eliminateBoard b j = b j) ∧
    ((∀ j : Fin 10, j.val < fullCount b → ∀ x : Fin 8, b j x = Color.NONE) →
      rowsOf (eliminateBoard b) = referenceCompaction b) ∧
    (fullCount b = 0 → eliminateBoard b = b) := by
  have hinv := elimInv_final b
  have hk := eliminateLoop_write_y b
  have hle := hinv.w_le
  have htop : ∀ j : Fin 10, j.val < fullCount b → eliminateBoard b j = b j := by
    intro j hj
    apply hinv.untouched j
    omega
  refine ⟨htop, ?_, ?_⟩
  · intro hempty
    have hrows := hinv.rows
    rw [hk, List.drop_zero] at hrows
    have hk10 : fullCount b ≤ 10 := by omega
    unfold referenceCompaction
    rw [← hrows]
    have htake : List.replicate (fullCount b) (fun _ => Color.NONE)
        = (rowsOf (eliminateBoard b)).take (fullCount b) := by
      apply List.ext_getElem
      · rw [List.length_replicate, List.length_take, rowsOf_length]
        omega
      · intro n h1 h2
        rw [List.length_replicate] at h1
        rw [List.getElem_replicate, List.getElem_take]
        unfold rowsOf
        rw [List.getElem_ofFn]
        have hn : n < 10 := by omega
        have e := htop ⟨n, hn⟩ h1
        funext x
        have e2 : eliminateBoard b ⟨n, hn⟩ x = b ⟨n, hn⟩ x := by rw [e]
        exact (e2.trans (hempty ⟨n, hn⟩ h1 x)).symm
    rw [htake]
    exact (List.take_append_drop _ _).symm
  · intro h0
    funext j
    obtain ⟨z, h1, _, h3⟩ := hinv.placed j (Nat.zero_le _) (not_isFull_of_fullCount_zero b h0 j)
    have hb := fullBelow_le_fullCount b j
    have hz : z = j := Fin.ext (by omega)
    rw [hz] at h3
    exact h3

theorem top_rows_untouched_witness :
    (0 : Fin 10).val < fullCount shaftFilled ∧
    eliminateBoard shaftFilled 0 = shaftFilled 0 :=
  ⟨by decide, (top_rows_untouched shaftFilled).1 0 (by decide)⟩

/-! ## The active piece stays a tetromino -/

/-- A rotation candidate of an orientation of a catalogue shape is again an
orientation of that shape. -/
theorem rotateLoop_orientation (i : Fin 7) (k : Fin 4) (d : Bool) :
    ∃ k1 : Fin 4, rotateLoop d (tetromino_sizes i) (orientation i k) = orientation i k1 := by
  revert i k d
  decide!

/-- Every orientation of a catalogue shape has 4 non-empty cells of one colour
inside the box of the shape. -/
theorem orientation_shape (i : Fin 7) (k : Fin 4) :
    cellCount (orientation i k) = 4 ∧ OneColour (orientation i k) ∧
    InBox (orientation i k) (tetromino_sizes i) := by
  revert i k
  decide!

theorem isPiece_select_next_tetromino (r : Nat) (g : Game) :
    IsPiece (select_next_tetromino r g) := by
  have h := select_next_tetromino_piece r g
  exact ⟨⟨r % 7, Nat.mod_lt r (by decide)⟩, 0, h.2.1, h.1⟩

theorem isPiece_rotate (d : Bool) (g : Game) (h : IsPiece g) : IsPiece (rotate d g) := by
  by_cases hc : check (rotate_candidate d g) = Result.OK
  · rw [rotate_of_ok d g hc]
    obtain ⟨i, k, hs, ht⟩ := h
    obtain ⟨k1, hk1⟩ := rotateLoop_orientation i k d
    refine ⟨i, k1, hs, ?_⟩
    change rotateLoop d g.current_tetromino_size g.current_tetromino = _
    rw [hs, ht, hk1]
  · rw [rotate_of_not_ok d g hc]; exact h

theorem isPiece_move (dy dx : Int) (r : Nat) (g : Game) (h : IsPiece g) :
    IsPiece (move dy dx r g) := by
  by_cases hc : check (move_candidate dy dx g) = Result.OK
  · rw [move_of_ok dy dx r g hc]; exact h
  · by_cases hx : check (move_candidate dy dx g) = Result.OVERLAP_X
    · rw [move_of_overlap_x dy dx r g hx]; exact h
    · rw [move_of_lock dy dx r g hc hx]
      exact isPiece_select_next_tetromino r _

theorem reachable_isPiece {g : Game} (hr : Reachable g) : IsPiece g := by
  induction hr with
  | fresh r => exact isPiece_select_next_tetromino r _
  | rotate d _ ih => exact isPiece_rotate d _ ih
  | left r _ ih => exact isPiece_move 0 (-1) r _ ih
  | right r _ ih => exact isPiece_move 0 1 r _ ih
  | down r _ ih => exact isPiece_move 1 0 r _ ih

theorem isPiece_shape {g : Game} (h : IsPiece g) :
    cellCount g.current_tetromino = 4 ∧ OneColour g.current_tetromino ∧
    InBox g.current_tetromino g.current_tetromino_size := by
  obtain ⟨i, k, hs, ht⟩ := h
  rw [hs, ht]
  exact orientation_shape i k

/-- C20 (the active piece stays a tetromino): in every state reached from a
fresh game, the piece grid has exactly 4 non-empty cells, all of one colour
and all inside the top-left `N × N` box for the current size `N`; and a
rotation, accepted or reverted, gives a grid with the same number of non-empty
cells, all inside the box. -/
theorem piece_stays_tetromino (g : Game) (hr : Reachable g) :
    cellCount g.current_tetromino = 4 ∧
    OneColour g.current_tetromino ∧
    InBox g.current_tetromino g.current_tetromino_size ∧
    (∀ d : Bool,
      cellCount (rotate d g).current_tetromino = cellCount g.current_tetromino ∧
      InBox (rotate d g).current_tetromino (rotate d g).current_tetromino_size) := by
  have h := isPiece_shape (reachable_isPiece hr)
  refine ⟨h.1, h.2.1, h.2.2, fun d => ?_⟩
  have h2 := isPiece_shape (reachable_isPiece (Reachable.rotate d hr))
  exact ⟨h2.1.trans h.1.symm, h2.2.2⟩

theorem piece_stays_tetromino_witness :
    Reachable wallState ∧ cellCount wallState.current_tetromino = 4 :=
  ⟨wallState_reachable, (piece_stays_tetromino wallState wallState_reachable).1⟩

end Tetris
